import Mathlib

/-!
Verification development for a tree-walking interpreter (lexer, parser,
runtime value model, environment chain, evaluator) written in Rust.
The definitions below are a shallow embedding of the source files
`lexer.rs`, `parser.rs`, `token.rs`, `grammar.rs`, `runtime.rs`, `env.rs`,
`std.rs` and `interpreter.rs`.  Mutable interpreter state (the `Rc<RefCell>`
environment heap and the `global`/`current` pointers) is threaded
explicitly; environment references are indices into an allocation list.
Rust `f64` is modelled by `F64` below; `anyhow` errors, the `Return`
control-flow signal and Rust panics are modelled by an explicit error type.
-/

namespace Twli

/-- Model of Rust `f64` as used by the interpreter.  Finite doubles are
abstracted as exact rationals (rounding and overflow of finite arithmetic
are not modelled; no claim depends on them).  The special values infinity,
negative infinity and NaN are explicit, so that the `PartialEq` /
`PartialOrd` behaviour of `f64` (NaN is not equal to itself and is
unordered) is captured faithfully. -/
inductive F64 where
  | finite (q : Rat)
  | inf
  | negInf
  | nan
deriving DecidableEq, Repr

/-- `f64` `PartialEq`: NaN compares unequal to everything, including itself. -/
def F64.beq : F64 → F64 → Bool
  | .finite a, .finite b => decide (a = b)
  | .inf, .inf => true
  | .negInf, .negInf => true
  | _, _ => false

/-- `f64` `partial_cmp`: `none` exactly when a NaN is involved. -/
def F64.cmp : F64 → F64 → Option Ordering
  | .finite a, .finite b =>
      some (if a < b then .lt else if a = b then .eq else .gt)
  | .finite _, .inf => some .lt
  | .finite _, .negInf => some .gt
  | .inf, .finite _ => some .gt
  | .inf, .inf => some .eq
  | .inf, .negInf => some .gt
  | .negInf, .finite _ => some .lt
  | .negInf, .negInf => some .eq
  | .negInf, .inf => some .lt
  | _, _ => none

def F64.neg : F64 → F64
  | .finite q => .finite (-q)
  | .inf => .negInf
  | .negInf => .inf
  | .nan => .nan

def F64.add : F64 → F64 → F64
  | .nan, _ => .nan
  | _, .nan => .nan
  | .finite a, .finite b => .finite (a + b)
  | .inf, .negInf => .nan
  | .negInf, .inf => .nan
  | .inf, _ => .inf
  | _, .inf => .inf
  | .negInf, _ => .negInf
  | _, .negInf => .negInf

def F64.sub : F64 → F64 → F64
  | .nan, _ => .nan
  | _, .nan => .nan
  | .finite a, .finite b => .finite (a - b)
  | .inf, .inf => .nan
  | .negInf, .negInf => .nan
  | .inf, _ => .inf
  | .negInf, _ => .negInf
  | .finite _, .inf => .negInf
  | .finite _, .negInf => .inf

def F64.mul : F64 → F64 → F64
  | .nan, _ => .nan
  | _, .nan => .nan
  | .finite a, .finite b => .finite (a * b)
  | .inf, .inf => .inf
  | .inf, .negInf => .negInf
  | .negInf, .inf => .negInf
  | .negInf, .negInf => .inf
  | .inf, .finite b => if b < 0 then .negInf else if b = 0 then .nan else .inf
  | .finite a, .inf => if a < 0 then .negInf else if a = 0 then .nan else .inf
  | .negInf, .finite b => if b < 0 then .inf else if b = 0 then .nan else .negInf
  | .finite a, .negInf => if a < 0 then .inf else if a = 0 then .nan else .negInf

/-- Division on the `f64` model.  The interpreter only divides after its own
zero check, so the `b = 0` branch of the finite case is unreachable there. -/
def F64.div : F64 → F64 → F64
  | .nan, _ => .nan
  | _, .nan => .nan
  | .finite a, .finite b => if b = 0 then .nan else .finite (a / b)
  | .finite _, .inf => .finite 0
  | .finite _, .negInf => .finite 0
  | .inf, .finite b => if b < 0 then .negInf else .inf
  | .negInf, .finite b => if b < 0 then .inf else .negInf
  | .inf, _ => .nan
  | .negInf, _ => .nan

/-- `TokenType` from `token.rs`.  Literal kinds carry their payload. -/
inductive TokenType where
  | leftParen
  | rightParen
  | leftBrace
  | rightBrace
  | comma
  | dot
  | minus
  | plus
  | semicolon
  | slash
  | star
  | bang
  | bangEqual
  | equal
  | equalEqual
  | greater
  | greaterEqual
  | less
  | lessEqual
  | dotDot
  | identifier
  | string (s : String)
  | number (n : F64)
  | and
  | class_
  | else_
  | false_
  | fn
  | for_
  | if_
  | in_
  | null
  | or
  | return_
  | super_
  | this_
  | true_
  | let_
  | while_
deriving DecidableEq, Repr

/-- `Token` from `token.rs`. -/
structure Token where
  lexeme : String
  ty : TokenType
  line : Nat
deriving DecidableEq, Repr

/-- The `KEYWORDS` table from `token.rs`. -/
def keywordLookup : String → Option TokenType
  | "let" => some .let_
  | "fn" => some .fn
  | "while" => some .while_
  | "for" => some .for_
  | "in" => some .in_
  | "and" => some .and
  | "or" => some .or
  | "if" => some .if_
  | "else" => some .else_
  | "null" => some .null
  | "return" => some .return_
  | "true" => some .true_
  | "false" => some .false_
  | "this" => some .this_
  | "super" => some .super_
  | "class" => some .class_
  | _ => none

/-- The `literal` enum from `grammar.rs`. -/
inductive Lit where
  | boolean (b : Bool)
  | number (n : F64)
  | str (s : String)
  | null
deriving DecidableEq, Repr

/- The AST from `grammar.rs` (as generated by its `define!` macro).
The partial class feature (`classDecl`, `get`, `set`) has no parser
surface and no evaluator arm matching it; per the specification it is out
of scope and those variants are omitted. -/

mutual

inductive Declaration where
  | stmtDecl (stmt : Statement)
  | letDecl (ident : Token) (init : Option Expression)
  | fnDecl (ident : Token) (params : List Token) (body : Statement)

inductive Statement where
  | exprStmt (expr : Expression)
  | blockStmt (stmts : List Declaration)
  | ifStmt (condition : Expression) (ifBranch : Statement) (elseBranch : Option Statement)
  | whileStmt (condition : Expression) (body : Statement)
  | returnStmt (returnToken : Token) (expr : Option Expression)

inductive Expression where
  | literal (l : Lit)
  | var (t : Token)
  | call (callee : Expression) (parenToken : Token) (args : List Expression)
  | unary (operator : Token) (expr : Expression)
  | logical (left : Expression) (operator : Token) (right : Expression)
  | binary (left : Expression) (operator : Token) (right : Expression)
  | range (left : Expression) (right : Expression)
  | grouping (e : Expression)
  | assignment (ident : Token) (expr : Expression)

end

/-- A single-quote character, used when reproducing diagnostic texts. -/
def sq : String := String.mk [Char.ofNat 39]

/-- A diagnostic: `isRuntime` distinguishes the `runtime_error` and
`syntax_error` formatting helpers of `error.rs`; colour codes are not
modelled. -/
structure Diag where
  isRuntime : Bool
  line : Nat
  msg : String
deriving DecidableEq, Repr

def msgUnexpectedTok (c : String) : String :=
  "Unexpected Token " ++ sq ++ c ++ sq

def msgUnterminatedString : String := "Unterminated string"

/-- Lexer state (`Lexer` struct from `lexer.rs`).  The source is modelled as
a list of characters; the Rust code mixes byte slicing and `chars().nth`,
which agree on the ASCII sources all claims use. -/
structure LexState where
  source : List Char
  current : Nat
  start : Nat
  line : Nat
  tokens : List Token
deriving Repr

def LexState.finished (st : LexState) : Bool :=
  st.current ≥ st.source.length

/-- `Lexer::peek`: the null character when past the end. -/
def LexState.peekChar (st : LexState) : Char :=
  if st.finished then Char.ofNat 0 else st.source.getD st.current (Char.ofNat 0)

/-- `Lexer::peek1`.  The source compares `current + 1` with the length for
the sentinel and otherwise indexes (the index is in range whenever the
function is reached, because `peek1` is only consulted after `peek`
matched a real character). -/
def LexState.peek1 (st : LexState) : Char :=
  if st.current + 1 = st.source.length then Char.ofNat 0
  else st.source.getD (st.current + 1) (Char.ofNat 0)

/-- `Lexer::next_char`; `none` models the `unwrap` panic on an
out-of-range index. -/
def LexState.nextChar (st : LexState) : Option (Char × LexState) :=
  (st.source.get? st.current).map
    (fun c => (c, { st with current := st.current + 1 }))

/-- `Lexer::complement`. -/
def LexState.complement (st : LexState) (c : Char) : Bool × LexState :=
  if st.peekChar = c then (true, { st with current := st.current + 1 })
  else (false, st)

/-- `Lexer::add_token`: the lexeme is the `start..current` source slice. -/
def LexState.addToken (st : LexState) (ty : TokenType) : LexState :=
  let lexeme := String.mk ((st.source.drop st.start).take (st.current - st.start))
  { st with tokens := st.tokens ++ [Token.mk lexeme ty st.line] }

/-- The loop of `Lexer::add_identifier_token`.  Rust's Unicode
`is_alphanumeric` is approximated by ASCII `isAlphanum`; all claims use
ASCII sources. -/
def LexState.skipIdentChars : Nat → LexState → LexState
  | 0, st => st
  | fuel+1, st =>
      if st.peekChar.isAlphanum || st.peekChar = '_' then
        LexState.skipIdentChars fuel { st with current := st.current + 1 }
      else st

def LexState.addIdentifierToken (st : LexState) : LexState :=
  let st1 := LexState.skipIdentChars (st.source.length + 1) st
  let lexeme := String.mk ((st1.source.drop st1.start).take (st1.current - st1.start))
  match keywordLookup lexeme with
  | some kw => st1.addToken kw
  | none => st1.addToken .identifier

/-- The scanning loop of `Lexer::add_string_token`. -/
def LexState.skipStringChars : Nat → LexState → LexState
  | 0, st => st
  | fuel+1, st =>
      if st.peekChar ≠ '"' ∧ ¬ st.finished = true then
        LexState.skipStringChars fuel { st with current := st.current + 1 }
      else st

/-- `Lexer::add_string_token`: on an unterminated string the error is
returned and no token is added. -/
def LexState.addStringToken (st : LexState) : Option Diag × LexState :=
  let st1 := LexState.skipStringChars (st.source.length + 1) st
  if st1.finished then (some ⟨false, st1.line, msgUnterminatedString⟩, st1)
  else
    let st2 := { st1 with current := st1.current + 1 }
    let content :=
      String.mk ((st2.source.drop (st2.start + 1)).take (st2.current - 1 - (st2.start + 1)))
    (none, st2.addToken (.string content))

def digitsToNat (cs : List Char) : Nat :=
  cs.foldl (fun a c => a * 10 + (c.toNat - 48)) 0

/-- The `str::parse::<f64>` call of `Lexer::add_number_token`, on lexemes of
the shape `digits` or `digits.digits`, abstracted to exact rationals. -/
def parseF64 (cs : List Char) : F64 :=
  let intPart := cs.takeWhile (fun c => c ≠ '.')
  let rest := cs.dropWhile (fun c => c ≠ '.')
  match rest with
  | _ :: frac =>
      .finite ((digitsToNat intPart : Rat) + (digitsToNat frac : Rat) / ((10 : Rat) ^ frac.length))
  | [] => .finite (digitsToNat intPart)

def LexState.skipDigits : Nat → LexState → LexState
  | 0, st => st
  | fuel+1, st =>
      if st.peekChar.isDigit then
        LexState.skipDigits fuel { st with current := st.current + 1 }
      else st

/-- `Lexer::add_number_token`: digits, optionally `.` plus digits when the
character after the dot is a digit (a trailing dot is left for `.`/`..`). -/
def LexState.addNumberToken (st : LexState) : LexState :=
  let st1 := LexState.skipDigits (st.source.length + 1) st
  let st2 :=
    if st1.peekChar = '.' ∧ st1.peek1.isDigit then
      LexState.skipDigits (st1.source.length + 1) { st1 with current := st1.current + 1 }
    else st1
  let lexemeChars := (st2.source.drop st2.start).take (st2.current - st2.start)
  st2.addToken (.number (parseF64 lexemeChars))

/-- `Lexer::scan_token`.  The result is `none` for the `next_char` unwrap
panic (unreachable: `tokenize` only scans while not finished), otherwise
an optional accumulated diagnostic plus the new state. -/
def LexState.scanToken (st0 : LexState) : Option (Option Diag × LexState) :=
  match st0.nextChar with
  | none => none
  | some (c, st) =>
    if c = '(' then some (none, st.addToken .leftParen)
    else if c = ')' then some (none, st.addToken .rightParen)
    else if c = '\x7b' then some (none, st.addToken .leftBrace)
    else if c = '\x7d' then some (none, st.addToken .rightBrace)
    else if c = ',' then some (none, st.addToken .comma)
    else if c = '-' then some (none, st.addToken .minus)
    else if c = '+' then some (none, st.addToken .plus)
    else if c = ';' then some (none, st.addToken .semicolon)
    else if c = '*' then some (none, st.addToken .star)
    else if c = '!' then
      let p := st.complement '='
      some (none, if p.1 then p.2.addToken .bangEqual else p.2.addToken .bang)
    else if c = '=' then
      let p := st.complement '='
      some (none, if p.1 then p.2.addToken .equalEqual else p.2.addToken .equal)
    else if c = '>' then
      let p := st.complement '='
      some (none, if p.1 then p.2.addToken .greaterEqual else p.2.addToken .greater)
    else if c = '<' then
      let p := st.complement '='
      some (none, if p.1 then p.2.addToken .lessEqual else p.2.addToken .less)
    else if c = '.' then
      let p := st.complement '.'
      some (none, if p.1 then p.2.addToken .dotDot else p.2.addToken .dot)
    else if c = '"' then
      some st.addStringToken
    else if c.isDigit then some (none, st.addNumberToken)
    else if c.isAlpha ∨ c = '_' then some (none, st.addIdentifierToken)
    else if c = ' ' ∨ c = '\r' ∨ c = '\t' then some (none, st)
    else if c = '\n' then some (none, { st with line := st.line + 1 })
    else some (some ⟨false, st.line, msgUnexpectedTok (String.mk [c])⟩, st)

/-- Result of `Lexer::tokenize`: the token list, or the accumulated
diagnostics; `crash` models a Rust panic and `fuelOut` exhaustion of the
step budget (unreachable: every scan consumes at least one character). -/
inductive LexOut where
  | ok (tokens : List Token)
  | fail (errs : List Diag)
  | crash
  | fuelOut
deriving DecidableEq, Repr

def tokenizeLoop : Nat → LexState → List Diag → LexOut
  | 0, _, _ => .fuelOut
  | fuel+1, st, errs =>
    if st.finished then
      if errs.isEmpty then .ok st.tokens else .fail errs
    else
      let st1 := { st with start := st.current }
      match st1.scanToken with
      | none => .crash
      | some (none, st2) => tokenizeLoop fuel st2 errs
      | some (some d, st2) => tokenizeLoop fuel st2 (errs ++ [d])

/-- `Lexer::tokenize` (including the `reset`). -/
def tokenize (source : String) : LexOut :=
  tokenizeLoop (source.length + 1) ⟨source.data, 0, 0, 1, []⟩ []

/-! ## Parser (`parser.rs`) -/

/-- Parser cursor state (`Parser` struct, minus the accumulated error
string, which the top-level `parse` loop threads separately). -/
structure PState where
  tokens : List Token
  current : Nat
deriving DecidableEq, Repr

/-- Failure of one parsing function: an accumulated diagnostic, a Rust
panic (`crash`), or exhaustion of the step budget (`fuelOut`; the source
parser can genuinely loop forever, see the end-of-stream claims). -/
inductive PErr where
  | diag (d : Diag)
  | crash
  | fuelOut
deriving DecidableEq, Repr

/-- Result of a parsing function; the cursor state is kept on errors, as
`&mut self` does in the source. -/
inductive PRes (α : Type) where
  | ok (a : α) (st : PState)
  | err (e : PErr) (st : PState)

def PRes.bind : PRes α → (α → PState → PRes β) → PRes β
  | .ok a st, f => f a st
  | .err e st, _ => .err e st

def PState.finished (st : PState) : Bool :=
  st.current ≥ st.tokens.length

/-- `Parser::peek`: past the end of the stream it falls back to the LAST
token of the list; `none` models the `expect` panic on an empty list. -/
def PState.peekTok (st : PState) : Option Token :=
  match st.tokens.get? st.current with
  | some t => some t
  | none => st.tokens.getLast?

/-- `Parser::peek_previous`: panics (`none`) when `current` is zero. -/
def PState.peekPrevious (st : PState) : Option Token :=
  if st.current = 0 then none
  else st.tokens.get? (st.current - 1)

/-- `Parser::next_token`: at end of stream it returns `peek` WITHOUT
advancing. -/
def PState.nextToken (st : PState) : Option (Token × PState) :=
  if st.finished then st.peekTok.map (fun t => (t, st))
  else (st.tokens.get? st.current).map
    (fun t => (t, { st with current := st.current + 1 }))

/-- `Parser::expect`. -/
def expectTok (st : PState) (ty : TokenType) (msg : String) (line : Nat) : PRes Token :=
  match st.peekTok with
  | none => .err .crash st
  | some t =>
    if t.ty = ty then
      match st.nextToken with
      | none => .err .crash st
      | some (t', st') => .ok t' st'
    else .err (.diag ⟨false, line, msg⟩) st

def dbgQuote (s : String) : String := "\"" ++ s ++ "\""

def msgLetIdent : String := "expected identifier after let declaration"
def msgLetSemi : String := "Expect " ++ sq ++ ";" ++ sq ++ " after variable declaration"
def msgExprSemi : String := "Expected " ++ sq ++ ";" ++ sq ++ " after expression"
def msgForIdent : String := "Expected identifier after " ++ sq ++ "for" ++ sq ++ " keyword"
def msgForIn : String := "Expected " ++ sq ++ "in" ++ sq ++ " keyword after identifier in for loop declaration"
def msgForRangeNum : String := "Expected range operands to evaluate to a number"
def msgForRange : String := "Expected range expression (a..b) in for loop declaration"
def msgForBlock : String := "Expected block after for loop declaration"
def msgBlockOpen : String := "Expected " ++ sq ++ "\x7b" ++ sq ++ " at begining of block"
def msgBlockClose : String := "Expected " ++ sq ++ "\x7d" ++ sq ++ " at the end of scope"
def msgUnclosedBlock : String := "Unclosed block"
def msgInvalidAssign : String := "Invalid assigment target"
def msgRParenExpr : String := "Expected " ++ sq ++ ")" ++ sq ++ " after expression"
def msgRParenArgs : String := "Expected " ++ sq ++ ")" ++ sq ++ " after function arguments"
def msgExpectedExpr (lexeme : String) : String :=
  "Expected expression. Found " ++ dbgQuote lexeme

mutual

/-- `Parser::parse_declaration`: dispatches on `let` only — there is no
`fn` (or `return`) dispatch in the source. -/
def parseDeclaration : Nat → PState → PRes Declaration
  | 0, st => .err .fuelOut st
  | fuel+1, st =>
    match st.peekTok with
    | none => .err .crash st
    | some t =>
      if t.ty = .let_ then parseLetDeclaration fuel st
      else
        (parseStatment fuel st).bind fun s st1 => .ok (.stmtDecl s) st1

/-- `Parser::parse_let_declaration`. -/
def parseLetDeclaration : Nat → PState → PRes Declaration
  | 0, st => .err .fuelOut st
  | fuel+1, st =>
    match st.nextToken with
    | none => .err .crash st
    | some (letTok, st1) =>
      (expectTok st1 .identifier msgLetIdent letTok.line).bind fun ident st2 =>
      match st2.peekTok with
      | none => .err .crash st2
      | some t2 =>
        if t2.ty = .equal then
          match st2.nextToken with
          | none => .err .crash st2
          | some (_, st3) =>
            (parseExpression fuel st3).bind fun init st4 =>
            (expectTok st4 .semicolon msgLetSemi letTok.line).bind fun _ st5 =>
            .ok (.letDecl ident (some init)) st5
        else
          (expectTok st2 .semicolon msgLetSemi letTok.line).bind fun _ st5 =>
          .ok (.letDecl ident none) st5

/-- `Parser::parse_statment` (sic): dispatches on `{`, `if`, `while`,
`for`; everything else — including `fn` and `return` — falls through to
the expression-statement rule. -/
def parseStatment : Nat → PState → PRes Statement
  | 0, st => .err .fuelOut st
  | fuel+1, st =>
    match st.peekTok with
    | none => .err .crash st
    | some t =>
      if t.ty = .leftBrace then parseBlockStatement fuel st
      else if t.ty = .if_ then parseIfStatement fuel st
      else if t.ty = .while_ then parseWhileStatement fuel st
      else if t.ty = .for_ then parseForStatement fuel st
      else
        (parseExpression fuel st).bind fun expr st1 =>
        match st1.peekPrevious with
        | none => .err .crash st1
        | some prev =>
          (expectTok st1 .semicolon msgExprSemi prev.line).bind fun _ st2 =>
          .ok (.exprStmt expr) st2

/-- `Parser::parse_for_statement`, including the parse-time desugaring to
a block of `let` plus `while`. -/
def parseForStatement : Nat → PState → PRes Statement
  | 0, st => .err .fuelOut st
  | fuel+1, st =>
    match st.nextToken with
    | none => .err .crash st
    | some (forTok, st1) =>
      (expectTok st1 .identifier msgForIdent forTok.line).bind fun varTok st2 =>
      (expectTok st2 .in_ msgForIn forTok.line).bind fun _ st3 =>
      (parseRange fuel st3).bind fun rangeE st4 =>
      (parseBlockStatement fuel st4).bind fun body st5 =>
      match rangeE with
      | .range (.literal (.number startN)) (.literal (.number endN)) =>
        let varDecl : Declaration :=
          .letDecl varTok (some (.literal (.number startN)))
        let condition : Expression :=
          .binary (.var varTok) (Token.mk "<" .less forTok.line)
            (.literal (.number endN))
        let incrementExpr : Expression :=
          .binary (.var varTok) (Token.mk "+" .plus forTok.line)
            (.literal (.number (.finite 1)))
        let iteration : Statement := .exprStmt (.assignment varTok incrementExpr)
        (match body with
         | .blockStmt stmts =>
             .ok (.blockStmt [varDecl,
               .stmtDecl (.whileStmt condition (.blockStmt (stmts ++ [.stmtDecl iteration])))]) st5
         | _ => .err (.diag ⟨false, forTok.line, msgForBlock⟩) st5)
      | .range _ _ => .err (.diag ⟨false, forTok.line, msgForRangeNum⟩) st5
      | _ => .err (.diag ⟨false, forTok.line, msgForRange⟩) st5

/-- `Parser::parse_while_statement`. -/
def parseWhileStatement : Nat → PState → PRes Statement
  | 0, st => .err .fuelOut st
  | fuel+1, st =>
    match st.nextToken with
    | none => .err .crash st
    | some (_, st1) =>
      (parseExpression fuel st1).bind fun condition st2 =>
      (parseBlockStatement fuel st2).bind fun body st3 =>
      .ok (.whileStmt condition body) st3

/-- `Parser::parse_if_statement`. -/
def parseIfStatement : Nat → PState → PRes Statement
  | 0, st => .err .fuelOut st
  | fuel+1, st =>
    match st.nextToken with
    | none => .err .crash st
    | some (_, st1) =>
      (parseExpression fuel st1).bind fun condition st2 =>
      (parseBlockStatement fuel st2).bind fun ifBranch st3 =>
      match st3.peekTok with
      | none => .err .crash st3
      | some t =>
        if t.ty = .else_ then
          match st3.nextToken with
          | none => .err .crash st3
          | some (_, st4) =>
            (parseBlockStatement fuel st4).bind fun elseBranch st5 =>
            .ok (.ifStmt condition ifBranch (some elseBranch)) st5
        else .ok (.ifStmt condition ifBranch none) st3

/-- `Parser::parse_block_statement`.  Note the argument-order detail: Rust
evaluates `self.peek_previous().line` BEFORE calling `expect`, so a block
at the very start of the token stream panics. -/
def parseBlockStatement : Nat → PState → PRes Statement
  | 0, st => .err .fuelOut st
  | fuel+1, st =>
    match st.peekPrevious with
    | none => .err .crash st
    | some prev =>
      (expectTok st .leftBrace msgBlockOpen prev.line).bind fun lbrace st1 =>
      (parseBlockLoop fuel st1 []).bind fun stmts st2 =>
      if st2.current ≥ st2.tokens.length then
        .err (.diag ⟨true, lbrace.line, msgUnclosedBlock⟩) st2
      else
        (expectTok st2 .rightBrace msgBlockClose lbrace.line).bind fun _ st3 =>
        .ok (.blockStmt stmts) st3

/-- The declaration loop of `parse_block_statement` (runs while the cursor
is in range and the upcoming token is not `}`). -/
def parseBlockLoop : Nat → PState → List Declaration → PRes (List Declaration)
  | 0, st, _ => .err .fuelOut st
  | fuel+1, st, acc =>
    if st.current < st.tokens.length then
      match st.tokens.get? st.current with
      | none => .err .crash st
      | some t =>
        if t.ty = .rightBrace then .ok acc st
        else
          (parseDeclaration fuel st).bind fun d st1 =>
          parseBlockLoop fuel st1 (acc ++ [d])
    else .ok acc st

/-- `Parser::parse_expression`. -/
def parseExpression : Nat → PState → PRes Expression
  | 0, st => .err .fuelOut st
  | fuel+1, st => parseAssignment fuel st

/-- `Parser::parse_assignment`. -/
def parseAssignment : Nat → PState → PRes Expression
  | 0, st => .err .fuelOut st
  | fuel+1, st =>
    (parseRange fuel st).bind fun expr st1 =>
    match st1.peekTok with
    | none => .err .crash st1
    | some t =>
      if t.ty = .equal then
        match st1.nextToken with
        | none => .err .crash st1
        | some (equals, st2) =>
          (parseAssignment fuel st2).bind fun value st3 =>
          match expr with
          | .var v => .ok (.assignment v value) st3
          | _ => .err (.diag ⟨false, equals.line, msgInvalidAssign⟩) st3
      else .ok expr st1

/-- `Parser::parse_range`. -/
def parseRange : Nat → PState → PRes Expression
  | 0, st => .err .fuelOut st
  | fuel+1, st =>
    (parseOr fuel st).bind fun left st1 =>
    match st1.peekTok with
    | none => .err .crash st1
    | some t =>
      if t.ty = .dotDot then
        match st1.nextToken with
        | none => .err .crash st1
        | some (_, st2) =>
          (parseOr fuel st2).bind fun right st3 =>
          .ok (.range left right) st3
      else .ok left st1

/-- `Parser::parse_or` (its loop body recurses into `parse_or` for the
right operand, as the source does). -/
def parseOr : Nat → PState → PRes Expression
  | 0, st => .err .fuelOut st
  | fuel+1, st =>
    (parseAnd fuel st).bind fun left st1 =>
    parseOrLoop fuel st1 left

def parseOrLoop : Nat → PState → Expression → PRes Expression
  | 0, st, _ => .err .fuelOut st
  | fuel+1, st, left =>
    match st.peekTok with
    | none => .err .crash st
    | some t =>
      if t.ty = .or then
        match st.nextToken with
        | none => .err .crash st
        | some (op, st1) =>
          (parseOr fuel st1).bind fun right st2 =>
          parseOrLoop fuel st2 (.logical left op right)
      else .ok left st

/-- `Parser::parse_and`. -/
def parseAnd : Nat → PState → PRes Expression
  | 0, st => .err .fuelOut st
  | fuel+1, st =>
    (parseEquality fuel st).bind fun left st1 =>
    parseAndLoop fuel st1 left

def parseAndLoop : Nat → PState → Expression → PRes Expression
  | 0, st, _ => .err .fuelOut st
  | fuel+1, st, left =>
    match st.peekTok with
    | none => .err .crash st
    | some t =>
      if t.ty = .and then
        match st.nextToken with
        | none => .err .crash st
        | some (op, st1) =>
          (parseEquality fuel st1).bind fun right st2 =>
          parseAndLoop fuel st2 (.logical left op right)
      else .ok left st

/-- `Parser::parse_equality`. -/
def parseEquality : Nat → PState → PRes Expression
  | 0, st => .err .fuelOut st
  | fuel+1, st =>
    (parseComparison fuel st).bind fun left st1 =>
    parseEqualityLoop fuel st1 left

def parseEqualityLoop : Nat → PState → Expression → PRes Expression
  | 0, st, _ => .err .fuelOut st
  | fuel+1, st, left =>
    match st.peekTok with
    | none => .err .crash st
    | some t =>
      if t.ty = .equalEqual ∨ t.ty = .bangEqual then
        match st.nextToken with
        | none => .err .crash st
        | some (op, st1) =>
          (parseComparison fuel st1).bind fun right st2 =>
          parseEqualityLoop fuel st2 (.binary left op right)
      else .ok left st

/-- `Parser::parse_comparison`. -/
def parseComparison : Nat → PState → PRes Expression
  | 0, st => .err .fuelOut st
  | fuel+1, st =>
    (parseTerm fuel st).bind fun left st1 =>
    parseComparisonLoop fuel st1 left

def parseComparisonLoop : Nat → PState → Expression → PRes Expression
  | 0, st, _ => .err .fuelOut st
  | fuel+1, st, left =>
    match st.peekTok with
    | none => .err .crash st
    | some t =>
      if t.ty = .greater ∨ t.ty = .greaterEqual ∨ t.ty = .less ∨ t.ty = .lessEqual then
        match st.nextToken with
        | none => .err .crash st
        | some (op, st1) =>
          (parseTerm fuel st1).bind fun right st2 =>
          parseComparisonLoop fuel st2 (.binary left op right)
      else .ok left st

/-- `Parser::parse_term`. -/
def parseTerm : Nat → PState → PRes Expression
  | 0, st => .err .fuelOut st
  | fuel+1, st =>
    (parseFactor fuel st).bind fun left st1 =>
    parseTermLoop fuel st1 left

def parseTermLoop : Nat → PState → Expression → PRes Expression
  | 0, st, _ => .err .fuelOut st
  | fuel+1, st, left =>
    match st.peekTok with
    | none => .err .crash st
    | some t =>
      if t.ty = .minus ∨ t.ty = .plus then
        match st.nextToken with
        | none => .err .crash st
        | some (op, st1) =>
          (parseFactor fuel st1).bind fun right st2 =>
          parseTermLoop fuel st2 (.binary left op right)
      else .ok left st

/-- `Parser::parse_factor`. -/
def parseFactor : Nat → PState → PRes Expression
  | 0, st => .err .fuelOut st
  | fuel+1, st =>
    (parseUnary fuel st).bind fun left st1 =>
    parseFactorLoop fuel st1 left

def parseFactorLoop : Nat → PState → Expression → PRes Expression
  | 0, st, _ => .err .fuelOut st
  | fuel+1, st, left =>
    match st.peekTok with
    | none => .err .crash st
    | some t =>
      if t.ty = .star ∨ t.ty = .slash then
        match st.nextToken with
        | none => .err .crash st
        | some (op, st1) =>
          (parseUnary fuel st1).bind fun right st2 =>
          parseFactorLoop fuel st2 (.binary left op right)
      else .ok left st

/-- `Parser::parse_unary` (the operand parses as a PRIMARY in the source,
not as a nested unary). -/
def parseUnary : Nat → PState → PRes Expression
  | 0, st => .err .fuelOut st
  | fuel+1, st =>
    match st.peekTok with
    | none => .err .crash st
    | some t =>
      if t.ty = .minus ∨ t.ty = .bang then
        match st.nextToken with
        | none => .err .crash st
        | some (op, st1) =>
          (parsePrimary fuel st1).bind fun expr st2 =>
          .ok (.unary op expr) st2
      else parseCall fuel st

/-- `Parser::parse_call`. -/
def parseCall : Nat → PState → PRes Expression
  | 0, st => .err .fuelOut st
  | fuel+1, st =>
    (parsePrimary fuel st).bind fun callee st1 =>
    parseCallLoop fuel st1 callee

def parseCallLoop : Nat → PState → Expression → PRes Expression
  | 0, st, _ => .err .fuelOut st
  | fuel+1, st, callee =>
    match st.peekTok with
    | none => .err .crash st
    | some t =>
      if t.ty = .leftParen then
        match st.nextToken with
        | none => .err .crash st
        | some (tok, st1) =>
          (parseFnArgs fuel st1 callee tok).bind fun c st2 =>
          parseCallLoop fuel st2 c
      else .ok callee st

/-- `Parser::parse_fn_args`. -/
def parseFnArgs : Nat → PState → Expression → Token → PRes Expression
  | 0, st, _, _ => .err .fuelOut st
  | fuel+1, st, e, parenToken =>
    (parseFnArgsLoop fuel st []).bind fun args st1 =>
    match st1.peekPrevious with
    | none => .err .crash st1
    | some prev =>
      (expectTok st1 .rightParen msgRParenArgs prev.line).bind fun _ st2 =>
      .ok (.call e parenToken args) st2

/-- The argument loop of `parse_fn_args` (runs while `peek` is not `)`).
When the cursor is past the end and the stale final token is in the FIRST
set of `expression`, this loop re-parses that token forever. -/
def parseFnArgsLoop : Nat → PState → List Expression → PRes (List Expression)
  | 0, st, _ => .err .fuelOut st
  | fuel+1, st, acc =>
    match st.peekTok with
    | none => .err .crash st
    | some t =>
      if t.ty = .rightParen then .ok acc st
      else
        (parseExpression fuel st).bind fun arg st1 =>
        match st1.peekTok with
        | none => .err .crash st1
        | some t2 =>
          if t2.ty = .comma then
            match st1.nextToken with
            | none => .err .crash st1
            | some (_, st2) => parseFnArgsLoop fuel st2 (acc ++ [arg])
          else parseFnArgsLoop fuel st1 (acc ++ [arg])

/-- `Parser::parse_primary`. -/
def parsePrimary : Nat → PState → PRes Expression
  | 0, st => .err .fuelOut st
  | fuel+1, st =>
    match st.nextToken with
    | none => .err .crash st
    | some (primary, st1) =>
      match primary.ty with
      | .number n => .ok (.literal (.number n)) st1
      | .string s => .ok (.literal (.str s)) st1
      | .false_ => .ok (.literal (.boolean false)) st1
      | .true_ => .ok (.literal (.boolean true)) st1
      | .null => .ok (.literal .null) st1
      | .identifier => .ok (.var primary) st1
      | .leftParen =>
        (parseExpression fuel st1).bind fun expr st2 =>
        (expectTok st2 .rightParen msgRParenExpr primary.line).bind fun _ st3 =>
        .ok (.grouping expr) st3
      | _ => .err (.diag ⟨false, primary.line, msgExpectedExpr primary.lexeme⟩) st1

end

/-- The skip loop of `Parser::synchronize`; `none` is a panic. -/
def syncLoop : Nat → PState → Option PState
  | 0, st => some st
  | fuel+1, st =>
    if st.finished then some st
    else
      match st.peekPrevious with
      | none => none
      | some prev =>
        if prev.ty = .semicolon then some st
        else
          match st.peekTok with
          | none => none
          | some t =>
            match t.ty with
            | .class_ => some st
            | .let_ => some st
            | .fn => some st
            | .for_ => some st
            | .while_ => some st
            | .if_ => some st
            | .return_ => some st
            | _ =>
              match st.nextToken with
              | none => none
              | some (_, st1) => syncLoop fuel st1

/-- `Parser::synchronize`. -/
def synchronize (fuel : Nat) (st : PState) : Option PState :=
  match st.nextToken with
  | none => none
  | some (_, st1) => syncLoop fuel st1

/-- Result of `Parser::parse`: declarations, or accumulated diagnostics
(the source concatenates their formatted strings), or a panic, or fuel
exhaustion (reached on the source's genuine infinite loops). -/
inductive ParseOut where
  | ok (decls : List Declaration)
  | fail (errs : List Diag)
  | crash
  | fuelOut

/-- The loop of `Parser::parse` with its error accumulation and
synchronization. -/
def parseLoop : Nat → PState → List Declaration → List Diag → ParseOut
  | 0, _, _, _ => .fuelOut
  | fuel+1, st, decls, errs =>
    if st.finished then
      if errs.isEmpty then .ok decls else .fail errs
    else
      match parseDeclaration fuel st with
      | .ok d st1 => parseLoop fuel st1 (decls ++ [d]) errs
      | .err (.diag d) st1 =>
        (match synchronize fuel st1 with
         | none => .crash
         | some st2 => parseLoop fuel st2 decls (errs ++ [d]))
      | .err .crash _ => .crash
      | .err .fuelOut _ => .fuelOut

/-- `Parser::parse` on a token list. -/
def parseProgram (tokens : List Token) (fuel : Nat) : ParseOut :=
  parseLoop fuel ⟨tokens, 0⟩ [] []

/-! ## Runtime value model (`runtime.rs`, `std.rs`) -/

/-- The callable kinds reachable at runtime: `Function` from `runtime.rs`
(which stores ONLY the declaration — there is no captured closure
environment field) and the `Println` builtin from `std.rs`.  The `Class`
callable is never registered by the interpreter (the class feature is out
of the specification's scope) and is omitted. -/
inductive Callable where
  | function (ident : Token) (params : List Token) (body : Statement)
  | println

/-- `Object` from `runtime.rs`.  The partial `Instance` variant belongs to
the out-of-scope class feature (unreachable at runtime: no class value is
ever registered) and is omitted. -/
inductive Object where
  | str (s : String)
  | boolean (b : Bool)
  | number (n : F64)
  | callable (c : Callable)
  | null

/-- `Callable::arity`. -/
def Callable.arity : Callable → Nat
  | .function _ params _ => params.length
  | .println => 1

/-- `Object::thrutiness` (sic). -/
def Object.thrutiness : Object → Bool
  | .null => false
  | .boolean b => b
  | _ => true

/-- `impl PartialEq for Object` (`==` on values). -/
def objEq : Object → Object → Bool
  | .number a, .number b => F64.beq a b
  | .str a, .str b => decide (a = b)
  | .boolean a, .boolean b => decide (a = b)
  | .null, .null => true
  | .callable _, .callable _ => false
  | _, _ => false

/-- `impl PartialOrd for Object` (`partial_cmp`). -/
def objCmp : Object → Object → Option Ordering
  | .str a, .str b => some (compare a b)
  | .number a, .number b => F64.cmp a b
  | _, _ => none

def msgAddMixed : String := "Expected both operands to be of the same type"
def msgAddUnsupported : String :=
  "Unsuported operands types for addition. Supported ones are " ++ sq ++ "string"
    ++ sq ++ " and " ++ sq ++ "number" ++ sq
def msgDivZero : String := "Division by zero is not allowed"
def msgDivNotNumbers : String := "Expected both operands to be numbers in division operation"
def msgMulNotNumbers : String := "Expected both operands to be numbers in multiplication operation"
def msgSubNotNumbers : String := "Expected both operands to be numbers in subtraction operation"
def msgOrdering : String :=
  "Ordering operators can only be used when both operands are " ++ sq ++ "string"
    ++ sq ++ " or " ++ sq ++ "number" ++ sq
def msgExpectedNumber : String := "Expected number"
def msgUnexpectedBinaryOp : String := "Unexpected binary operator"
def msgUnaryOp : String :=
  "Expected " ++ sq ++ "-" ++ sq ++ " or " ++ sq ++ "!" ++ sq ++ " in unary operations"
def msgExpectedCallable : String := "Expected callable object"
def msgArity (n m : Nat) : String :=
  "Expected " ++ toString n ++ " argument(s), but " ++ toString m ++ " were found"
def msgUndefVar (name : String) : String :=
  "Undefined variable " ++ sq ++ name ++ sq
def msgAssignNonexistent (name : String) : String :=
  "Tried to assign to non-existent binding " ++ sq ++ name ++ sq

/-- `impl ops::Add for Object` (`bail!` messages as plain strings). -/
def objAdd : Object → Object → Except String Object
  | .str s1, .str s2 => .ok (.str (s1 ++ s2))
  | .number n1, .number n2 => .ok (.number (F64.add n1 n2))
  | .str _, .number _ => .error msgAddMixed
  | .number _, .str _ => .error msgAddMixed
  | _, _ => .error msgAddUnsupported

/-- `impl ops::Div for Object`: zero check first (`n2 == 0.0` is `f64`
equality with finite zero), then the division. -/
def objDiv : Object → Object → Except String Object
  | .number n1, .number n2 =>
      if F64.beq n2 (.finite 0) then .error msgDivZero
      else .ok (.number (F64.div n1 n2))
  | _, _ => .error msgDivNotNumbers

/-- `impl ops::Mul for Object`. -/
def objMul : Object → Object → Except String Object
  | .number n1, .number n2 => .ok (.number (F64.mul n1 n2))
  | _, _ => .error msgMulNotNumbers

/-- `impl ops::Sub for Object`. -/
def objSub : Object → Object → Except String Object
  | .number n1, .number n2 => .ok (.number (F64.sub n1 n2))
  | _, _ => .error msgSubNotNumbers

/-! ## Environments and interpreter state (`env.rs`, `interpreter.rs`) -/

/-- Evaluator-level exceptional outcomes: the two diagnostic families of
`error.rs`, a plain `bail!` message, the `Return` control-flow signal, the
two panic kinds reachable in the evaluator (out-of-bounds `args` indexing
and the `todo!()` in `eval_range`), and fuel exhaustion. -/
inductive Exc where
  | synDiag (line : Nat) (msg : String)
  | rtDiag (line : Nat) (msg : String)
  | plainMsg (msg : String)
  | retSig (value : Option Object)
  | oob
  | unimplemented
  | fuelOut

/-- `Environment` from `env.rs`; the parent link is an index into the
interpreter's environment heap. -/
structure Env where
  bindings : List (String × Object)
  enclosing : Option Nat

/-- The `Interpreter` struct: the heap of reference-counted environments
plus the `global` and `current` references. -/
structure Interp where
  envs : List Env
  global : Nat
  current : Nat

/-- `HashMap::insert` on the bindings (keyed association list). -/
def insertBinding : List (String × Object) → String → Object → List (String × Object)
  | [], k, v => [(k, v)]
  | (k', v') :: rest, k, v =>
      if k' = k then (k, v) :: rest else (k', v') :: insertBinding rest k v

/-- `HashMap::get` on the bindings. -/
def lookupBinding : List (String × Object) → String → Option Object
  | [], _ => none
  | (k', v') :: rest, k => if k' = k then some v' else lookupBinding rest k

/-- Dereference an environment handle.  `Rc` guarantees a live referent in
the source, so the dereference is total (the default is never consulted:
the evaluator only produces indices of allocated environments). -/
def getEnv (envs : List Env) (r : Nat) : Env :=
  envs.getD r ⟨[], none⟩

def setEnv (envs : List Env) (r : Nat) (e : Env) : List Env :=
  envs.set r e

/-- `Environment::define` through a handle. -/
def defineIn (st : Interp) (r : Nat) (key : String) (v : Object) : Interp :=
  let e := getEnv st.envs r
  { st with envs := setEnv st.envs r { e with bindings := insertBinding e.bindings key v } }

/-- `Environment::get`: chain lookup; the not-found error is formatted with
`syntax_error` in the source.  The chain fuel is an artifact (parent
indices strictly decrease, so `envs.length` always suffices). -/
def envGet (envs : List Env) : Nat → Nat → Token → Except Exc Object
  | 0, _, _ => .error .fuelOut
  | fuel+1, r, key =>
    let e := getEnv envs r
    match lookupBinding e.bindings key.lexeme with
    | some obj => .ok obj
    | none =>
      match e.enclosing with
      | some parent => envGet envs fuel parent key
      | none => .error (.synDiag key.line (msgUndefVar key.lexeme))

/-- `Environment::assign`: overwrite where found, never create. -/
def envAssign (envs : List Env) : Nat → Nat → String → Object → Except Exc (List Env)
  | 0, _, _, _ => .error .fuelOut
  | fuel+1, r, key, v =>
    let e := getEnv envs r
    match lookupBinding e.bindings key with
    | some _ => .ok (setEnv envs r { e with bindings := insertBinding e.bindings key v })
    | none =>
      match e.enclosing with
      | some parent => envAssign envs fuel parent key v
      | none => .error (.plainMsg (msgAssignNonexistent key))

/-- Allocate a fresh environment (`Rc::new(RefCell::new(Environment::new _))`). -/
def allocEnv (st : Interp) (parent : Option Nat) : Interp × Nat :=
  ({ st with envs := st.envs ++ [⟨[], parent⟩] }, st.envs.length)

/-- `Interpreter::new`: one global environment holding the `println`
builtin; `current` starts at `global`. -/
def Interp.new : Interp :=
  { envs := [⟨[("println", Object.callable .println)], none⟩], global := 0, current := 0 }

/-- The parameter-binding loop of `Function::call`
(`for idx in 0..params.len() { args[idx] ... }`): `none` is the indexing
panic when fewer arguments than parameters were supplied; extra arguments
are ignored. -/
def bindParams (st : Interp) (envIdx : Nat) : List Token → List Object → Option Interp
  | [], _ => some st
  | p :: ps, a :: rest => bindParams (defineIn st envIdx p.lexeme a) envIdx ps rest
  | _ :: _, [] => none

/-- Result of an evaluator step: the Rust methods mutate `self`, so the
state is kept on the error path as well. -/
inductive ERes (α : Type) where
  | ok (a : α) (st : Interp)
  | err (e : Exc) (st : Interp)

def ERes.bind : ERes α → (α → Interp → ERes β) → ERes β
  | .ok a st, f => f a st
  | .err e st, _ => .err e st

/-- The tail of `Interpreter::eval_unary` after the operand is evaluated. -/
def applyUnary (opTy : TokenType) (v : Object) (line : Nat) : Except Exc Object :=
  match opTy with
  | .bang => .ok (.boolean (! v.thrutiness))
  | .minus =>
    (match v with
     | .number n => .ok (.number (F64.neg n))
     | _ => .error (.rtDiag line msgExpectedNumber))
  | _ => .error (.rtDiag line msgUnaryOp)

/-- `map_err(|e| runtime_error(line, e))` on the arithmetic operators. -/
def liftPlain (line : Nat) : Except String Object → Except Exc Object
  | .ok v => .ok v
  | .error m => .error (.rtDiag line m)

/-- The operator dispatch of `Interpreter::eval_binary` after both
operands are evaluated. -/
def applyBinary (opTy : TokenType) (l r : Object) (line : Nat) : Except Exc Object :=
  match opTy with
  | .equalEqual => .ok (.boolean (objEq l r))
  | .bangEqual => .ok (.boolean (! objEq l r))
  | .minus => liftPlain line (objSub l r)
  | .star => liftPlain line (objMul l r)
  | .slash => liftPlain line (objDiv l r)
  | .plus => liftPlain line (objAdd l r)
  | .greater =>
    (match objCmp l r with
     | some a => (match a with
                  | .gt => .ok (.boolean true)
                  | _ => .ok (.boolean false))
     | none => .error (.rtDiag line msgOrdering))
  | .greaterEqual =>
    (match objCmp l r with
     | some a => (match a with
                  | .gt => .ok (.boolean true)
                  | .eq => .ok (.boolean true)
                  | _ => .ok (.boolean false))
     | none => .error (.rtDiag line msgOrdering))
  | .lessEqual =>
    (match objCmp l r with
     | some a => (match a with
                  | .lt => .ok (.boolean true)
                  | .eq => .ok (.boolean true)
                  | _ => .ok (.boolean false))
     | none => .error (.rtDiag line msgOrdering))
  | .less =>
    (match objCmp l r with
     | some a => (match a with
                  | .lt => .ok (.boolean true)
                  | _ => .ok (.boolean false))
     | none => .error (.rtDiag line msgOrdering))
  | _ => .error (.rtDiag line msgUnexpectedBinaryOp)

/-- `Literal` to `Object` (`Interpreter::eval_literal`). -/
def evalLiteral : Lit → Object
  | .boolean b => .boolean b
  | .number n => .number n
  | .str s => .str s
  | .null => .null

mutual

/-- `Interpreter::register_declaration` with the bodies of
`register_let_declaration` (which defines into the GLOBAL environment)
and `register_function_declaration` (which defines into `current`; the
stored `Function` carries only the declaration, no closure environment). -/
def registerDeclaration : Nat → Interp → Declaration → ERes Unit
  | 0, st, _ => .err .fuelOut st
  | fuel+1, st, decl =>
    match decl with
    | .stmtDecl s => execStatement fuel st s
    | .letDecl ident init =>
      (match init with
       | some i =>
         (evalExpression fuel st i).bind fun v st1 =>
         .ok () (defineIn st1 st1.global ident.lexeme v)
       | none => .ok () (defineIn st st.global ident.lexeme .null))
    | .fnDecl ident params body =>
      .ok () (defineIn st st.current ident.lexeme (.callable (.function ident params body)))

/-- `Interpreter::exec_statement` with the bodies of the statement
helpers (`exec_expression_statement`, `exec_if_statement`,
`exec_while_statement`, `exec_return_statement`); the block arm allocates
the child environment before entering `exec_block_statement`, as the
argument expression in the source does. -/
def execStatement : Nat → Interp → Statement → ERes Unit
  | 0, st, _ => .err .fuelOut st
  | fuel+1, st, stmt =>
    match stmt with
    | .exprStmt e => (evalExpression fuel st e).bind fun _ st1 => .ok () st1
    | .blockStmt stmts =>
      let p := allocEnv st (some st.current)
      execBlockStatement fuel p.1 stmts p.2
    | .ifStmt cond ifBranch elseBranch =>
      (evalExpression fuel st cond).bind fun c st1 =>
      if c.thrutiness then execStatement fuel st1 ifBranch
      else
        match elseBranch with
        | some eb => execStatement fuel st1 eb
        | none => .ok () st1
    | .whileStmt cond body =>
      (evalExpression fuel st cond).bind fun c st1 =>
      if c.thrutiness then
        (execStatement fuel st1 body).bind fun _ st2 =>
        execStatement fuel st2 (.whileStmt cond body)
      else .ok () st1
    | .returnStmt _ expr =>
      match expr with
      | some e =>
        (evalExpression fuel st e).bind fun v st1 =>
        .err (.retSig (some v)) st1
      | none => .err (.retSig none) st

/-- `Interpreter::exec_block_statement`: save `current`, run the
declarations in the new environment, and restore `current` — ONLY on the
success path, exactly as the source's early `?` return does. -/
def execBlockStatement : Nat → Interp → List Declaration → Nat → ERes Unit
  | 0, st, _, _ => .err .fuelOut st
  | fuel+1, st, stmts, newEnv =>
    let previous := st.current
    match execDeclList fuel { st with current := newEnv } stmts with
    | .ok _ st1 => .ok () { st1 with current := previous }
    | .err e st1 => .err e st1

/-- The declaration loop shared by `Interpreter::interpret` and
`exec_block_statement`. -/
def execDeclList : Nat → Interp → List Declaration → ERes Unit
  | 0, st, _ => .err .fuelOut st
  | fuel+1, st, decls =>
    match decls with
    | [] => .ok () st
    | d :: rest =>
      (registerDeclaration fuel st d).bind fun _ st1 =>
      execDeclList fuel st1 rest

/-- `Interpreter::eval_expression` with the bodies of the expression
helpers (`eval_literal`, `eval_call`, `eval_unary`, `eval_binary`,
`eval_logical`, `eval_range` — a `todo!()` —, `eval_assignment` — which
assigns starting from the GLOBAL environment). -/
def evalExpression : Nat → Interp → Expression → ERes Object
  | 0, st, _ => .err .fuelOut st
  | fuel+1, st, e =>
    match e with
    | .literal l => .ok (evalLiteral l) st
    | .var tok =>
      (match envGet st.envs (st.envs.length + 1) st.current tok with
       | .ok v => .ok v st
       | .error exc => .err exc st)
    | .call callee parenToken args =>
      (evalExpression fuel st callee).bind fun calleeV st1 =>
      (evalExprList fuel st1 args).bind fun argVs st2 =>
      finishCall fuel st2 calleeV argVs parenToken.line
    | .unary op sub =>
      (evalExpression fuel st sub).bind fun v st1 =>
      (match applyUnary op.ty v op.line with
       | .ok r => .ok r st1
       | .error exc => .err exc st1)
    | .binary l op r =>
      (evalExpression fuel st l).bind fun lv st1 =>
      (evalExpression fuel st1 r).bind fun rv st2 =>
      (match applyBinary op.ty lv rv op.line with
       | .ok v => .ok v st2
       | .error exc => .err exc st2)
    | .logical l op r =>
      (evalExpression fuel st l).bind fun lv st1 =>
      if op.ty = .or then
        (if lv.thrutiness then .ok lv st1
         else evalExpression fuel st1 r)
      else
        (if ! lv.thrutiness then .ok lv st1
         else evalExpression fuel st1 r)
    | .range _ _ => .err .unimplemented st
    | .grouping sub => evalExpression fuel st sub
    | .assignment ident sub =>
      (evalExpression fuel st sub).bind fun v st1 =>
      (match envAssign st1.envs (st1.envs.length + 1) st1.global ident.lexeme v with
       | .ok envs1 => .ok v { st1 with envs := envs1 }
       | .error (.plainMsg m) => .err (.rtDiag ident.line m) st1
       | .error exc => .err exc st1)

/-- The left-to-right argument evaluation loop of `eval_call`. -/
def evalExprList : Nat → Interp → List Expression → ERes (List Object)
  | 0, st, _ => .err .fuelOut st
  | fuel+1, st, es =>
    match es with
    | [] => .ok [] st
    | e :: rest =>
      (evalExpression fuel st e).bind fun v st1 =>
      (evalExprList fuel st1 rest).bind fun vs st2 =>
      .ok (v :: vs) st2

/-- The tail of `Interpreter::eval_call` after callee and arguments are
evaluated: the callable check, the arity check, and the invocation. -/
def finishCall : Nat → Interp → Object → List Object → Nat → ERes Object
  | 0, st, _, _, _ => .err .fuelOut st
  | fuel+1, st, calleeV, args, line =>
    match calleeV with
    | .callable c =>
      if c.arity ≠ args.length then
        .err (.rtDiag line (msgArity c.arity args.length)) st
      else callCallable fuel st c args
    | _ => .err (.rtDiag line msgExpectedCallable) st

/-- `Callable::call`: `Println::call` accesses `args[0]` unconditionally
(`oob` on an empty vector; printing itself is not modelled), and
`Function::call` allocates a child of the CALLER's `current` environment,
binds the parameters, runs the body block, and converts a `Return` signal
into the return value (`downcast` re-raises any other error). -/
def callCallable : Nat → Interp → Callable → List Object → ERes Object
  | 0, st, _, _ => .err .fuelOut st
  | fuel+1, st, c, args =>
    match c with
    | .println =>
      (match args with
       | [] => .err .oob st
       | _ :: _ => .ok .null st)
    | .function _ params body =>
      let p := allocEnv st (some st.current)
      match bindParams p.1 p.2 params args with
      | none => .err .oob p.1
      | some st2 =>
        match body with
        | .blockStmt stmts =>
          (match execBlockStatement fuel st2 stmts p.2 with
           | .err (.retSig v) st3 =>
             (match v with
              | some o => .ok o st3
              | none => .ok .null st3)
           | .err e st3 => .err e st3
           | .ok _ st3 => .ok .null st3)
        | _ => .ok .null st2

end

/-- `Interpreter::interpret` (its loop is the shared declaration loop). -/
def interpret (fuel : Nat) (st : Interp) (decls : List Declaration) : ERes Unit :=
  execDeclList fuel st decls

/-! Observers used to state concrete end-to-end facts. -/

/-- Run a program from a fresh interpreter, then evaluate one expression
in the resulting state. -/
def runThenEval (fuel : Nat) (decls : List Declaration) (e : Expression) : Option Object :=
  match interpret fuel Interp.new decls with
  | .ok _ st =>
    (match evalExpression fuel st e with
     | .ok v _ => some v
     | .err _ _ => none)
  | .err _ _ => none

/-- Run a program from a fresh interpreter and return the final state. -/
def runState (fuel : Nat) (decls : List Declaration) : Option Interp :=
  match interpret fuel Interp.new decls with
  | .ok _ st => some st
  | .err _ _ => none

/-- Run a program from a fresh interpreter and return its exceptional
outcome, if any. -/
def runExc (fuel : Nat) (decls : List Declaration) : Option Exc :=
  match interpret fuel Interp.new decls with
  | .ok _ _ => none
  | .err e _ => some e

/-! ## Claim analysis -/

/-- Kind discriminator on runtime values. -/
def Object.kindTag : Object → Nat
  | .str _ => 0
  | .boolean _ => 1
  | .number _ => 2
  | .callable _ => 3
  | .null => 4

def Object.isCallableObj : Object → Bool
  | .callable _ => true
  | _ => false

def Object.isNanNumber : Object → Bool
  | .number .nan => true
  | _ => false

def Object.isNumberObj : Object → Bool
  | .number _ => true
  | _ => false

/-- Tokens shared by the concrete test programs below. -/
def xTok : Token := ⟨"x", .identifier, 1⟩

def fTok : Token := ⟨"f", .identifier, 1⟩

def gTok : Token := ⟨"g", .identifier, 1⟩

def hTok : Token := ⟨"h", .identifier, 1⟩

def rparenTok : Token := ⟨")", .rightParen, 1⟩

def returnTok : Token := ⟨"return", .return_, 1⟩

/-- `fn f() { return x; }` as an AST declaration. -/
def fReadsX : Declaration :=
  .fnDecl fTok [] (.blockStmt [.stmtDecl (.returnStmt returnTok (some (.var xTok)))])

/-- `fn g(x) { return f(); }` as an AST declaration. -/
def gCallsF : Declaration :=
  .fnDecl gTok [xTok] (.blockStmt
    [.stmtDecl (.returnStmt returnTok (some (.call (.var fTok) rparenTok [])))])

/-- C1: the claim says a user-function call builds its environment on the
closure environment captured at the definition site, so that `x` inside
`f` (defined at top level, where `x` is unbound) cannot see a caller's
`x`.  The code stores no closure environment at all and parents the call
environment on the CALLER's `current`: calling `g(5)`, whose parameter is
`x`, makes `f`'s body read that `x` and `g(5)` evaluates to `5` (under
the claimed semantics it would be an undefined-variable error). -/
theorem function_call_parent_is_call_site_env :
    runThenEval 30 [fReadsX, gCallsF]
      (.call (.var gTok) rparenTok [.literal (.number (.finite 5))])
      = some (.number (.finite 5)) := by
  rfl

/-- `{ let x = 1; }` as a program. -/
def blockWithLet : Declaration :=
  .stmtDecl (.blockStmt [.letDecl xTok (some (.literal (.number (.finite 1))))])

/-- `fn h(x) { x = 2; }` as a declaration. -/
def hAssignsParam : Declaration :=
  .fnDecl hTok [xTok] (.blockStmt
    [.stmtDecl (.exprStmt (.assignment xTok (.literal (.number (.finite 2)))))])

/-- C2: the claim says `let` defines in the innermost environment and
assignment resolves from the current environment's chain.  In the code
both `register_let_declaration` and `eval_assignment` go through
`self.global` instead: a `let` inside a block IS visible outside the
block (first conjunct: `x` still reads `1` at top level), and an
assignment to a function parameter — bound only in the call environment,
not in the global chain — fails with the non-existent-binding error
(second conjunct). -/
theorem let_and_assignment_target_global_env :
    runThenEval 30 [blockWithLet] (.var xTok) = some (.number (.finite 1))
    ∧ runExc 30 [hAssignsParam,
        .stmtDecl (.exprStmt (.call (.var hTok) rparenTok [.literal (.number (.finite 1))]))]
        = some (.rtDiag 1 (msgAssignNonexistent "x")) := by
  exact ⟨rfl, rfl⟩

/-- `fn f(x) { return 0; } f(99);` as a program. -/
def callWithReturn : List Declaration :=
  [.fnDecl fTok [xTok] (.blockStmt
      [.stmtDecl (.returnStmt returnTok (some (.literal (.number (.finite 0)))))]),
   .stmtDecl (.exprStmt (.call (.var fTok) rparenTok [.literal (.number (.finite 99))]))]

/-- C3: the claim says `exec_block_statement` restores the previous
`current` environment in every case, including when a declaration
propagates an error or a return signal.  The source restores only on the
success path: after `f(99)` returns (through the `Return` signal), the
interpreter's `current` is still the function-call environment (index 1,
not the global 0), and the parameter `x` is still visible at top level
with value `99`. -/
theorem block_env_not_restored_on_return_signal :
    (runState 30 callWithReturn).map (fun st => (st.current, st.global)) = some (1, 0)
    ∧ runThenEval 30 callWithReturn (.var xTok) = some (.number (.finite 99)) := by
  exact ⟨rfl, rfl⟩

/-- The token sequence of `fn f ( ) { }`. -/
def fnDeclTokens : List Token :=
  [⟨"fn", .fn, 1⟩, ⟨"f", .identifier, 1⟩, ⟨"(", .leftParen, 1⟩,
   ⟨")", .rightParen, 1⟩, ⟨"\x7b", .leftBrace, 1⟩, ⟨"\x7d", .rightBrace, 1⟩]

/-- The token sequence of `return ;`. -/
def returnStmtTokens : List Token :=
  [⟨"return", .return_, 1⟩, ⟨";", .semicolon, 1⟩]

/-- C4: the claim says the parser accepts function declarations and
return statements.  `parse_declaration` dispatches only on `let` and
`parse_statment` only on `{`/`if`/`while`/`for`, so both token sequences
fall through to the expression grammar and are rejected by
`parse_primary` with an `Expected expression` syntax error
(`parse_fn_params` exists but is never called). -/
theorem parser_rejects_fn_declaration_and_return :
    parseProgram fnDeclTokens 100 = .fail [⟨false, 1, msgExpectedExpr "fn"⟩]
    ∧ parseProgram returnStmtTokens 100 = .fail [⟨false, 1, msgExpectedExpr "return"⟩] := by
  exact ⟨rfl, rfl⟩

/-- C5: for ten of the eleven single-character punctuation marks the
lexer produces the corresponding token kind, but there is NO `/` arm in
`scan_token`: a `/` falls through to the catch-all and is a lexical
error `Unexpected Token '/'` rather than a `Slash` token (the `Slash`
kind exists in `TokenType` and the parser's `parse_factor` matches it,
but the lexer can never produce it). -/
theorem lexer_punctuation_kinds_and_slash_error :
    tokenize "(" = .ok [⟨"(", .leftParen, 1⟩]
    ∧ tokenize ")" = .ok [⟨")", .rightParen, 1⟩]
    ∧ tokenize "\x7b" = .ok [⟨"\x7b", .leftBrace, 1⟩]
    ∧ tokenize "\x7d" = .ok [⟨"\x7d", .rightBrace, 1⟩]
    ∧ tokenize "," = .ok [⟨",", .comma, 1⟩]
    ∧ tokenize "." = .ok [⟨".", .dot, 1⟩]
    ∧ tokenize ";" = .ok [⟨";", .semicolon, 1⟩]
    ∧ tokenize "-" = .ok [⟨"-", .minus, 1⟩]
    ∧ tokenize "+" = .ok [⟨"+", .plus, 1⟩]
    ∧ tokenize "*" = .ok [⟨"*", .star, 1⟩]
    ∧ tokenize "!" = .ok [⟨"!", .bang, 1⟩]
    ∧ tokenize "/" = .fail [⟨false, 1, msgUnexpectedTok "/"⟩] := by
  refine ⟨?_, ?_, ?_, ?_, ?_, ?_, ?_, ?_, ?_, ?_, ?_, ?_⟩ <;> rfl

/-- C7 counterexample: the claim asserts `v == v` evaluates to true for
EVERY non-callable value, including every `Number` value.  The `Number`
payload is an `f64`, whose `PartialEq` makes NaN unequal to itself, and
NaN is reachable at runtime (e.g. a 309-digit literal overflows to
infinity and `inf - inf` is NaN); `Object::eq` on two NaN numbers is
`false`. -/
theorem value_eq_not_reflexive_on_nan :
    objEq (.number .nan) (.number .nan) = false := by
  rfl

/-- C7 (amended): equality is payload equality within a kind, values of
different kinds are never equal, `Null == Null` is true, callables are
never equal to anything (including themselves), and `v == v` is true for
every non-callable value EXCEPT a NaN number. -/
theorem value_equality_laws :
    (∀ s1 s2 : String, objEq (.str s1) (.str s2) = true ↔ s1 = s2)
    ∧ (∀ b1 b2 : Bool, objEq (.boolean b1) (.boolean b2) = true ↔ b1 = b2)
    ∧ (∀ n1 n2 : F64, objEq (.number n1) (.number n2) = F64.beq n1 n2)
    ∧ objEq .null .null = true
    ∧ (∀ v w : Object, v.kindTag ≠ w.kindTag → objEq v w = false)
    ∧ (∀ c1 c2 : Callable, objEq (.callable c1) (.callable c2) = false)
    ∧ (∀ v : Object, v.isCallableObj = false → v.isNanNumber = false →
         objEq v v = true) := by
  refine ⟨?_, ?_, ?_, rfl, ?_, ?_, ?_⟩
  · intro s1 s2
    simp [objEq]
  · intro b1 b2
    simp [objEq]
  · intro n1 n2
    rfl
  · intro v w h
    cases v <;> cases w <;> simp [objEq] <;> simp [Object.kindTag] at h
  · intro c1 c2
    rfl
  · intro v hc hn
    cases v with
    | str s => simp [objEq]
    | boolean b => simp [objEq]
    | number n =>
        cases n with
        | finite q => simp [objEq, F64.beq]
        | inf => rfl
        | negInf => rfl
        | nan => simp [Object.isNanNumber] at hn
    | callable c => simp [Object.isCallableObj] at hc
    | null => rfl

/-- C7 witness: the amended reflexivity law and the cross-kind law at
concrete values, through `value_equality_laws` itself. -/
theorem value_equality_laws_witness :
    objEq (.number (.finite 3)) (.number (.finite 3)) = true
    ∧ objEq (.str "a") (.boolean true) = false :=
  ⟨value_equality_laws.2.2.2.2.2.2 (.number (.finite 3)) (by decide) (by decide),
   value_equality_laws.2.2.2.2.1 (.str "a") (.boolean true) (by decide)⟩

/-- C8: evaluating `a / b` (the `Slash` arm of `eval_binary` delegating
to `ops::Div`) returns the number quotient when both operands are
numbers and `b` is not (f64-)equal to zero; it fails with the runtime
error `Division by zero is not allowed` exactly when both operands are
numbers and `b` equals zero (no infinity is produced there); and it
fails with the runtime error of `ops::Div` whenever either operand is
not a number. -/
theorem division_semantics :
    (∀ (a b : F64) (line : Nat),
       applyBinary .slash (.number a) (.number b) line =
         if F64.beq b (.finite 0) then .error (.rtDiag line msgDivZero)
         else .ok (.number (F64.div a b)))
    ∧ (∀ (v w : Object) (line : Nat),
       v.isNumberObj = false ∨ w.isNumberObj = false →
       applyBinary .slash v w line = .error (.rtDiag line msgDivNotNumbers)) := by
  constructor
  · intro a b line
    cases hb : F64.beq b (.finite 0) <;>
      simp [applyBinary, objDiv, liftPlain, hb]
  · intro v w line h
    cases v <;> cases w <;>
      simp [Object.isNumberObj] at h ⊢ <;> rfl

/-- C8 witness: the three division regimes at concrete inputs, through
`division_semantics` itself. -/
theorem division_semantics_witness :
    applyBinary .slash (.number (.finite 1)) (.number (.finite 0)) 1
      = .error (.rtDiag 1 msgDivZero)
    ∧ applyBinary .slash (.number (.finite 7)) (.number (.finite 2)) 1
      = .ok (.number (.finite (7 / 2)))
    ∧ applyBinary .slash .null (.number (.finite 1)) 2
      = .error (.rtDiag 2 msgDivNotNumbers) := by
  refine ⟨?_, ?_, division_semantics.2 .null (.number (.finite 1)) 2 (Or.inl rfl)⟩
  · have h := division_semantics.1 (.finite 1) (.finite 0) 1
    simpa [F64.beq] using h
  · have h := division_semantics.1 (.finite 7) (.finite 2) 1
    simpa [F64.beq, F64.div] using h

/-- C9: `eval_logical` evaluates the left operand first; for `or` a
truthy left value is returned as-is without evaluating the right operand
(the resulting interpreter state is exactly the post-left state, so no
side effect of the right operand can occur), for `and` symmetrically
with a falsy left value; otherwise the result is exactly the evaluation
of the right operand from the post-left state.  No boolean coercion is
applied. -/
theorem logical_short_circuit :
    ∀ (fuel : Nat) (st st' : Interp) (l r : Expression) (op : Token) (v : Object),
      evalExpression fuel st l = .ok v st' →
      ((op.ty = .or → v.thrutiness = true →
          evalExpression (fuel+1) st (.logical l op r) = .ok v st')
       ∧ (op.ty = .and → v.thrutiness = false →
          evalExpression (fuel+1) st (.logical l op r) = .ok v st')
       ∧ (op.ty = .or → v.thrutiness = false →
          evalExpression (fuel+1) st (.logical l op r) = evalExpression fuel st' r)
       ∧ (op.ty = .and → v.thrutiness = true →
          evalExpression (fuel+1) st (.logical l op r) = evalExpression fuel st' r)) := by
  intro fuel st st' l r op v h
  refine ⟨?_, ?_, ?_, ?_⟩ <;> intro hop htr <;>
    simp [evalExpression, h, ERes.bind, hop, htr]

/-- The token `or` on line 1, for the C9 witness. -/
def orTokW : Token := ⟨"or", .or, 1⟩

/-- C9 witness: `true or null` returns the left value and the untouched
post-left state, through `logical_short_circuit` itself. -/
theorem logical_short_circuit_witness :
    evalExpression 2 Interp.new (.logical (.literal (.boolean true)) orTokW (.literal .null))
      = .ok (.boolean true) Interp.new :=
  (logical_short_circuit 1 Interp.new Interp.new (.literal (.boolean true))
    (.literal .null) orTokW (.boolean true) rfl).1 rfl rfl

/-! ### C10: the arity check guards every invocation -/

/-- Detects the out-of-bounds-indexing panic outcome. -/
def isOobE : ERes α → Bool
  | .err .oob _ => true
  | _ => false

theorem isOobE_bind {α β : Type} {r : ERes α} {f : α → Interp → ERes β}
    (h1 : isOobE r = false) (h2 : ∀ a st, isOobE (f a st) = false) :
    isOobE (r.bind f) = false := by
  cases r with
  | ok a st => exact h2 a st
  | err e st =>
      simp only [ERes.bind]
      cases e <;> simp_all [isOobE]

theorem envGet_no_oob (envs : List Env) :
    ∀ (fuel r : Nat) (key : Token), envGet envs fuel r key ≠ .error .oob := by
  intro fuel
  induction fuel with
  | zero => intro r key h; simp [envGet] at h
  | succ n ih =>
      intro r key h
      simp only [envGet] at h
      split at h
      · exact absurd h (by simp)
      · split at h
        · exact ih _ key h
        · exact absurd h (by simp)

theorem envAssign_no_oob (envs : List Env) :
    ∀ (fuel r : Nat) (key : String) (v : Object),
      envAssign envs fuel r key v ≠ .error .oob := by
  intro fuel
  induction fuel with
  | zero => intro r key v h; simp [envAssign] at h
  | succ n ih =>
      intro r key v h
      simp only [envAssign] at h
      split at h
      · exact absurd h (by simp)
      · split at h
        · exact ih _ key v h
        · exact absurd h (by simp)

theorem liftPlain_no_oob (line : Nat) (x : Except String Object) :
    liftPlain line x ≠ .error .oob := by
  cases x <;> simp [liftPlain]

theorem applyUnary_no_oob (ty : TokenType) (v : Object) (line : Nat) :
    applyUnary ty v line ≠ .error .oob := by
  intro h
  unfold applyUnary at h
  split at h <;> try (split at h <;> simp_all)
  all_goals simp_all

theorem applyBinary_no_oob (ty : TokenType) (l r : Object) (line : Nat) :
    applyBinary ty l r line ≠ .error .oob := by
  intro h
  unfold applyBinary at h
  split at h <;>
    first
      | exact liftPlain_no_oob _ _ h
      | (split at h <;> try (split at h <;> simp_all)) <;> simp_all
      | simp_all

theorem bindParams_some (envIdx : Nat) :
    ∀ (params : List Token) (args : List Object) (st : Interp),
      params.length ≤ args.length → (bindParams st envIdx params args).isSome := by
  intro params
  induction params with
  | nil => intro args st _; simp [bindParams]
  | cons p ps ih =>
      intro args st hle
      cases args with
      | nil => simp at hle
      | cons a rest =>
          simp only [List.length_cons, Nat.add_le_add_iff_right] at hle
          simpa [bindParams] using ih rest _ hle

/-- No execution path of the evaluator reaches the out-of-bounds
indexing panic: the arity check of `eval_call` runs before every
invocation, so `Println::call`'s `args[0]` and `Function::call`'s
`args[idx]` accesses are always in bounds. -/
theorem evalNoOob : ∀ fuel : Nat,
    (∀ st d, isOobE (registerDeclaration fuel st d) = false)
    ∧ (∀ st s, isOobE (execStatement fuel st s) = false)
    ∧ (∀ st stmts envIdx, isOobE (execBlockStatement fuel st stmts envIdx) = false)
    ∧ (∀ st ds, isOobE (execDeclList fuel st ds) = false)
    ∧ (∀ st e, isOobE (evalExpression fuel st e) = false)
    ∧ (∀ st es, isOobE (evalExprList fuel st es) = false)
    ∧ (∀ st v args line, isOobE (finishCall fuel st v args line) = false)
    ∧ (∀ st c args, c.arity = args.length → isOobE (callCallable fuel st c args) = false) := by
  intro fuel
  induction fuel with
  | zero =>
      exact ⟨fun _ _ => rfl, fun _ _ => rfl, fun _ _ _ => rfl, fun _ _ => rfl,
             fun _ _ => rfl, fun _ _ => rfl, fun _ _ _ _ => rfl, fun _ _ _ _ => rfl⟩
  | succ n ih =>
      obtain ⟨ihReg, ihStmt, ihBlock, ihList, ihEval, ihArgs, ihFinish, ihCall⟩ := ih
      have hBlock : ∀ st stmts envIdx,
          isOobE (execBlockStatement (n+1) st stmts envIdx) = false := by
        intro st stmts envIdx
        simp only [execBlockStatement]
        cases hd : execDeclList n { st with current := envIdx } stmts with
        | ok a st1 => rfl
        | err e st1 =>
            have := ihList { st with current := envIdx } stmts
            rw [hd] at this
            exact this
      have hEval : ∀ st e, isOobE (evalExpression (n+1) st e) = false := by
        intro st e
        cases e with
        | literal l => rfl
        | var tok =>
            simp only [evalExpression]
            cases hg : envGet st.envs (st.envs.length + 1) st.current tok with
            | ok v => rfl
            | error exc =>
                cases exc <;> simp [isOobE]
                exact absurd hg (envGet_no_oob _ _ _ _)
        | call callee parenToken args =>
            simp only [evalExpression]
            refine isOobE_bind (ihEval st callee) ?_
            intro cv st1
            refine isOobE_bind (ihArgs st1 args) ?_
            intro avs st2
            exact ihFinish st2 cv avs parenToken.line
        | unary op sub =>
            simp only [evalExpression]
            refine isOobE_bind (ihEval st sub) ?_
            intro v st1
            cases ha : applyUnary op.ty v op.line with
            | ok r => rfl
            | error exc =>
                cases exc <;> simp [isOobE]
                exact absurd ha (applyUnary_no_oob _ _ _)
        | binary l op r =>
            simp only [evalExpression]
            refine isOobE_bind (ihEval st l) ?_
            intro lv st1
            refine isOobE_bind (ihEval st1 r) ?_
            intro rv st2
            cases ha : applyBinary op.ty lv rv op.line with
            | ok v => rfl
            | error exc =>
                cases exc <;> simp [isOobE]
                exact absurd ha (applyBinary_no_oob _ _ _ _)
        | logical l op r =>
            simp only [evalExpression]
            refine isOobE_bind (ihEval st l) ?_
            intro lv st1
            by_cases hop : op.ty = .or <;> simp [hop] <;>
              cases htr : lv.thrutiness <;> simp [htr] <;>
                first | rfl | exact ihEval st1 r
        | range l r => rfl
        | grouping sub =>
            simp only [evalExpression]
            exact ihEval st sub
        | assignment ident sub =>
            simp only [evalExpression]
            refine isOobE_bind (ihEval st sub) ?_
            intro v st1
            cases ha : envAssign st1.envs (st1.envs.length + 1) st1.global ident.lexeme v with
            | ok envs1 => rfl
            | error exc =>
                cases exc <;> simp [isOobE]
                exact absurd ha (envAssign_no_oob _ _ _ _ _)
      have hStmt : ∀ st s, isOobE (execStatement (n+1) st s) = false := by
        intro st s
        cases s with
        | exprStmt e =>
            simp only [execStatement]
            exact isOobE_bind (ihEval st e) (fun _ _ => rfl)
        | blockStmt stmts =>
            simp only [execStatement]
            exact ihBlock _ stmts _
        | ifStmt cond ifBranch elseBranch =>
            simp only [execStatement]
            refine isOobE_bind (ihEval st cond) ?_
            intro c st1
            cases htr : c.thrutiness
            · cases elseBranch with
              | some eb => simpa [htr] using ihStmt st1 eb
              | none => simp [htr, isOobE]
            · simpa [htr] using ihStmt st1 ifBranch
        | whileStmt cond body =>
            simp only [execStatement]
            refine isOobE_bind (ihEval st cond) ?_
            intro c st1
            cases htr : c.thrutiness
            · simp [htr, isOobE]
            · simp only [htr, if_true]
              refine isOobE_bind (ihStmt st1 body) ?_
              intro _ st2
              exact ihStmt st2 (.whileStmt cond body)
        | returnStmt tok expr =>
            simp only [execStatement]
            cases expr with
            | some e => exact isOobE_bind (ihEval st e) (fun _ _ => rfl)
            | none => rfl
      have hReg : ∀ st d, isOobE (registerDeclaration (n+1) st d) = false := by
        intro st d
        cases d with
        | stmtDecl s =>
            simp only [registerDeclaration]
            exact ihStmt st s
        | letDecl ident init =>
            simp only [registerDeclaration]
            cases init with
            | some i => exact isOobE_bind (ihEval st i) (fun _ _ => rfl)
            | none => rfl
        | fnDecl ident params body => rfl
      have hList : ∀ st ds, isOobE (execDeclList (n+1) st ds) = false := by
        intro st ds
        cases ds with
        | nil => rfl
        | cons d rest =>
            simp only [execDeclList]
            exact isOobE_bind (ihReg st d) (fun _ st1 => ihList st1 rest)
      have hCall : ∀ st c args, c.arity = args.length →
          isOobE (callCallable (n+1) st c args) = false := by
        intro st c args hlen
        cases c with
        | println =>
            cases args with
            | nil => simp [Callable.arity] at hlen
            | cons a rest => rfl
        | function ident params body =>
            simp only [callCallable]
            have hle : params.length ≤ args.length := by
              simp [Callable.arity] at hlen
              omega
            have hsome := bindParams_some (allocEnv st (some st.current)).2 params args
              (allocEnv st (some st.current)).1 hle
            cases hbp : bindParams (allocEnv st (some st.current)).1
                (allocEnv st (some st.current)).2 params args with
            | none => rw [hbp] at hsome; simp at hsome
            | some st2 =>
                cases body with
                | blockStmt stmts =>
                    simp only []
                    cases hb : execBlockStatement n st2 stmts
                        (allocEnv st (some st.current)).2 with
                    | ok a st3 => rfl
                    | err e st3 =>
                        have hnb := ihBlock st2 stmts (allocEnv st (some st.current)).2
                        rw [hb] at hnb
                        cases e with
                        | retSig v => cases v <;> rfl
                        | synDiag line msg => rfl
                        | rtDiag line msg => rfl
                        | plainMsg msg => rfl
                        | oob => exact absurd hnb (by simp [isOobE])
                        | unimplemented => rfl
                        | fuelOut => rfl
                | exprStmt e => rfl
                | ifStmt a b c => rfl
                | whileStmt a b => rfl
                | returnStmt a b => rfl
      have hFinish : ∀ st v args line, isOobE (finishCall (n+1) st v args line) = false := by
        intro st v args line
        cases v with
        | callable c =>
            simp only [finishCall]
            by_cases hne : c.arity = args.length
            · simp only [hne, ne_eq, not_true_eq_false, if_false]
              exact ihCall st c args hne
            · simp [hne, isOobE]
        | str s => rfl
        | boolean b => rfl
        | number nn => rfl
        | null => rfl
      have hArgs : ∀ st es, isOobE (evalExprList (n+1) st es) = false := by
        intro st es
        cases es with
        | nil => rfl
        | cons e rest =>
            simp only [evalExprList]
            refine isOobE_bind (ihEval st e) ?_
            intro v st1
            exact isOobE_bind (ihArgs st1 rest) (fun _ _ => rfl)
      exact ⟨hReg, hStmt, hBlock, hList, hEval, hArgs, hFinish, hCall⟩

/-- C10: (first conjunct) whenever `eval_call` reaches a callable whose
arity differs from the argument count, it stops with the arity runtime
error and never invokes the callable; (second and third conjuncts) as a
consequence, no program execution or expression evaluation ever reaches
the out-of-bounds `args` indexing of `Println::call` (`args[0]`) or
`Function::call` (`args[idx]`): every invocation that happens is guarded
by `arity == args.len()`. -/
theorem call_arity_checked_and_args_index_safe :
    (∀ (fuel : Nat) (st : Interp) (c : Callable) (args : List Object) (line : Nat),
       c.arity ≠ args.length →
       finishCall (fuel+1) st (.callable c) args line
         = .err (.rtDiag line (msgArity c.arity args.length)) st)
    ∧ (∀ (fuel : Nat) (st : Interp) (ds : List Declaration),
       isOobE (execDeclList fuel st ds) = false)
    ∧ (∀ (fuel : Nat) (st : Interp) (e : Expression),
       isOobE (evalExpression fuel st e) = false) := by
  refine ⟨?_, ?_, ?_⟩
  · intro fuel st c args line h
    simp [finishCall, h]
  · intro fuel st ds
    exact (evalNoOob fuel).2.2.2.1 st ds
  · intro fuel st e
    exact (evalNoOob fuel).2.2.2.2.1 st e

/-- C10 witness: the arity error on a zero-argument call of the
one-argument `println` builtin, plus the no-panic facts at a concrete
program, through `call_arity_checked_and_args_index_safe` itself. -/
theorem call_arity_checked_and_args_index_safe_witness :
    finishCall 1 Interp.new (.callable .println) [] 7
      = .err (.rtDiag 7 (msgArity 1 0)) Interp.new
    ∧ isOobE (execDeclList 3 Interp.new [blockWithLet]) = false
    ∧ isOobE (evalExpression 3 Interp.new (.literal .null)) = false :=
  ⟨call_arity_checked_and_args_index_safe.1 0 Interp.new .println [] 7 (by decide),
   call_arity_checked_and_args_index_safe.2.1 3 Interp.new [blockWithLet],
   call_arity_checked_and_args_index_safe.2.2 3 Interp.new (.literal .null)⟩

/-! ### C6: end-of-stream handling of the parser -/

/-- The token sequence of `x(1` (an unclosed call). -/
def loopTokens : List Token :=
  [⟨"x", .identifier, 1⟩, ⟨"(", .leftParen, 1⟩, ⟨"1", .number (.finite 1), 1⟩]

def stateL0 : PState := ⟨loopTokens, 0⟩

def stateL1 : PState := ⟨loopTokens, 1⟩

def stateL2 : PState := ⟨loopTokens, 2⟩

def stateL3 : PState := ⟨loopTokens, 3⟩

def litOne : Expression := .literal (.number (.finite 1))

/-- A parse step that failed by running out of fuel: the shape every
finite prefix of a diverging parser run has. -/
def pOut {α : Type} (r : PRes α) : Prop :=
  ∃ st, r = PRes.err .fuelOut st

theorem pOut_bind {α β : Type} {r : PRes α} {f : α → PState → PRes β}
    (h : pOut r) : pOut (r.bind f) := by
  obtain ⟨st, h⟩ := h
  rw [h]
  exact ⟨st, rfl⟩

theorem prim3 : ∀ f, parsePrimary f stateL3 = .ok litOne stateL3
    ∨ pOut (parsePrimary f stateL3) := by
  intro f
  cases f with
  | zero => exact Or.inr ⟨stateL3, rfl⟩
  | succ n => exact Or.inl rfl

theorem callLoop3 : ∀ f (c : Expression), parseCallLoop f stateL3 c = .ok c stateL3
    ∨ pOut (parseCallLoop f stateL3 c) := by
  intro f c
  cases f with
  | zero => exact Or.inr ⟨stateL3, rfl⟩
  | succ n => exact Or.inl rfl

theorem call3 : ∀ f, parseCall f stateL3 = .ok litOne stateL3
    ∨ pOut (parseCall f stateL3) := by
  intro f
  cases f with
  | zero => exact Or.inr ⟨stateL3, rfl⟩
  | succ n =>
      simp only [parseCall]
      rcases prim3 n with h | h
      · rw [h]
        simp only [PRes.bind]
        exact callLoop3 n litOne
      · exact Or.inr (pOut_bind h)

theorem unary3 : ∀ f, parseUnary f stateL3 = .ok litOne stateL3
    ∨ pOut (parseUnary f stateL3) := by
  intro f
  cases f with
  | zero => exact Or.inr ⟨stateL3, rfl⟩
  | succ n =>
      show parseCall n stateL3 = _ ∨ _
      exact call3 n

theorem factorLoop3 : ∀ f (c : Expression), parseFactorLoop f stateL3 c = .ok c stateL3
    ∨ pOut (parseFactorLoop f stateL3 c) := by
  intro f c
  cases f with
  | zero => exact Or.inr ⟨stateL3, rfl⟩
  | succ n => exact Or.inl rfl

theorem factor3 : ∀ f, parseFactor f stateL3 = .ok litOne stateL3
    ∨ pOut (parseFactor f stateL3) := by
  intro f
  cases f with
  | zero => exact Or.inr ⟨stateL3, rfl⟩
  | succ n =>
      simp only [parseFactor]
      rcases unary3 n with h | h
      · rw [h]
        simp only [PRes.bind]
        exact factorLoop3 n litOne
      · exact Or.inr (pOut_bind h)

theorem termLoop3 : ∀ f (c : Expression), parseTermLoop f stateL3 c = .ok c stateL3
    ∨ pOut (parseTermLoop f stateL3 c) := by
  intro f c
  cases f with
  | zero => exact Or.inr ⟨stateL3, rfl⟩
  | succ n => exact Or.inl rfl

theorem term3 : ∀ f, parseTerm f stateL3 = .ok litOne stateL3
    ∨ pOut (parseTerm f stateL3) := by
  intro f
  cases f with
  | zero => exact Or.inr ⟨stateL3, rfl⟩
  | succ n =>
      simp only [parseTerm]
      rcases factor3 n with h | h
      · rw [h]
        simp only [PRes.bind]
        exact termLoop3 n litOne
      · exact Or.inr (pOut_bind h)

theorem comparisonLoop3 : ∀ f (c : Expression),
    parseComparisonLoop f stateL3 c = .ok c stateL3
    ∨ pOut (parseComparisonLoop f stateL3 c) := by
  intro f c
  cases f with
  | zero => exact Or.inr ⟨stateL3, rfl⟩
  | succ n => exact Or.inl rfl

theorem comparison3 : ∀ f, parseComparison f stateL3 = .ok litOne stateL3
    ∨ pOut (parseComparison f stateL3) := by
  intro f
  cases f with
  | zero => exact Or.inr ⟨stateL3, rfl⟩
  | succ n =>
      simp only [parseComparison]
      rcases term3 n with h | h
      · rw [h]
        simp only [PRes.bind]
        exact comparisonLoop3 n litOne
      · exact Or.inr (pOut_bind h)

theorem equalityLoop3 : ∀ f (c : Expression),
    parseEqualityLoop f stateL3 c = .ok c stateL3
    ∨ pOut (parseEqualityLoop f stateL3 c) := by
  intro f c
  cases f with
  | zero => exact Or.inr ⟨stateL3, rfl⟩
  | succ n => exact Or.inl rfl

theorem equality3 : ∀ f, parseEquality f stateL3 = .ok litOne stateL3
    ∨ pOut (parseEquality f stateL3) := by
  intro f
  cases f with
  | zero => exact Or.inr ⟨stateL3, rfl⟩
  | succ n =>
      simp only [parseEquality]
      rcases comparison3 n with h | h
      · rw [h]
        simp only [PRes.bind]
        exact equalityLoop3 n litOne
      · exact Or.inr (pOut_bind h)

theorem andLoop3 : ∀ f (c : Expression), parseAndLoop f stateL3 c = .ok c stateL3
    ∨ pOut (parseAndLoop f stateL3 c) := by
  intro f c
  cases f with
  | zero => exact Or.inr ⟨stateL3, rfl⟩
  | succ n => exact Or.inl rfl

theorem and3 : ∀ f, parseAnd f stateL3 = .ok litOne stateL3
    ∨ pOut (parseAnd f stateL3) := by
  intro f
  cases f with
  | zero => exact Or.inr ⟨stateL3, rfl⟩
  | succ n =>
      simp only [parseAnd]
      rcases equality3 n with h | h
      · rw [h]
        simp only [PRes.bind]
        exact andLoop3 n litOne
      · exact Or.inr (pOut_bind h)

theorem orLoop3 : ∀ f (c : Expression), parseOrLoop f stateL3 c = .ok c stateL3
    ∨ pOut (parseOrLoop f stateL3 c) := by
  intro f c
  cases f with
  | zero => exact Or.inr ⟨stateL3, rfl⟩
  | succ n => exact Or.inl rfl

theorem or3 : ∀ f, parseOr f stateL3 = .ok litOne stateL3
    ∨ pOut (parseOr f stateL3) := by
  intro f
  cases f with
  | zero => exact Or.inr ⟨stateL3, rfl⟩
  | succ n =>
      simp only [parseOr]
      rcases and3 n with h | h
      · rw [h]
        simp only [PRes.bind]
        exact orLoop3 n litOne
      · exact Or.inr (pOut_bind h)

theorem range3 : ∀ f, parseRange f stateL3 = .ok litOne stateL3
    ∨ pOut (parseRange f stateL3) := by
  intro f
  cases f with
  | zero => exact Or.inr ⟨stateL3, rfl⟩
  | succ n =>
      simp only [parseRange]
      rcases or3 n with h | h
      · rw [h]
        simp only [PRes.bind]
        exact Or.inl rfl
      · exact Or.inr (pOut_bind h)

theorem assignment3 : ∀ f, parseAssignment f stateL3 = .ok litOne stateL3
    ∨ pOut (parseAssignment f stateL3) := by
  intro f
  cases f with
  | zero => exact Or.inr ⟨stateL3, rfl⟩
  | succ n =>
      simp only [parseAssignment]
      rcases range3 n with h | h
      · rw [h]
        simp only [PRes.bind]
        exact Or.inl rfl
      · exact Or.inr (pOut_bind h)

theorem expression3 : ∀ f, parseExpression f stateL3 = .ok litOne stateL3
    ∨ pOut (parseExpression f stateL3) := by
  intro f
  cases f with
  | zero => exact Or.inr ⟨stateL3, rfl⟩
  | succ n =>
      show parseAssignment n stateL3 = _ ∨ _
      exact assignment3 n

/-- The heart of the divergence: at cursor 3 (past the end) the stale
final `1` token is never `)`, `parse_expression` succeeds WITHOUT moving
the cursor, and the argument loop repeats forever. -/
theorem argsLoop3 : ∀ f (acc : List Expression), pOut (parseFnArgsLoop f stateL3 acc) := by
  intro f
  induction f with
  | zero => intro acc; exact ⟨stateL3, rfl⟩
  | succ n ih =>
      intro acc
      simp only [parseFnArgsLoop]
      rcases expression3 n with h | h
      · rw [show PState.peekTok stateL3 = some ⟨"1", .number (.finite 1), 1⟩ from rfl]
        simp only [reduceCtorEq, if_neg, reduceIte]
        rw [h]
        simp only [PRes.bind]
        rw [show PState.peekTok stateL3 = some ⟨"1", .number (.finite 1), 1⟩ from rfl]
        simp only [reduceCtorEq, if_neg, reduceIte]
        exact ih (acc ++ [litOne])
      · rw [show PState.peekTok stateL3 = some ⟨"1", .number (.finite 1), 1⟩ from rfl]
        simp only [reduceCtorEq, if_neg, reduceIte]
        exact pOut_bind h

theorem prim2 : ∀ f, parsePrimary f stateL2 = .ok litOne stateL3
    ∨ pOut (parsePrimary f stateL2) := by
  intro f
  cases f with
  | zero => exact Or.inr ⟨stateL2, rfl⟩
  | succ n => exact Or.inl rfl

theorem call2 : ∀ f, parseCall f stateL2 = .ok litOne stateL3
    ∨ pOut (parseCall f stateL2) := by
  intro f
  cases f with
  | zero => exact Or.inr ⟨stateL2, rfl⟩
  | succ n =>
      simp only [parseCall]
      rcases prim2 n with h | h
      · rw [h]
        simp only [PRes.bind]
        exact callLoop3 n litOne
      · exact Or.inr (pOut_bind h)

theorem unary2 : ∀ f, parseUnary f stateL2 = .ok litOne stateL3
    ∨ pOut (parseUnary f stateL2) := by
  intro f
  cases f with
  | zero => exact Or.inr ⟨stateL2, rfl⟩
  | succ n =>
      show parseCall n stateL2 = _ ∨ _
      exact call2 n

theorem factor2 : ∀ f, parseFactor f stateL2 = .ok litOne stateL3
    ∨ pOut (parseFactor f stateL2) := by
  intro f
  cases f with
  | zero => exact Or.inr ⟨stateL2, rfl⟩
  | succ n =>
      simp only [parseFactor]
      rcases unary2 n with h | h
      · rw [h]
        simp only [PRes.bind]
        exact factorLoop3 n litOne
      · exact Or.inr (pOut_bind h)

theorem term2 : ∀ f, parseTerm f stateL2 = .ok litOne stateL3
    ∨ pOut (parseTerm f stateL2) := by
  intro f
  cases f with
  | zero => exact Or.inr ⟨stateL2, rfl⟩
  | succ n =>
      simp only [parseTerm]
      rcases factor2 n with h | h
      · rw [h]
        simp only [PRes.bind]
        exact termLoop3 n litOne
      · exact Or.inr (pOut_bind h)

theorem comparison2 : ∀ f, parseComparison f stateL2 = .ok litOne stateL3
    ∨ pOut (parseComparison f stateL2) := by
  intro f
  cases f with
  | zero => exact Or.inr ⟨stateL2, rfl⟩
  | succ n =>
      simp only [parseComparison]
      rcases term2 n with h | h
      · rw [h]
        simp only [PRes.bind]
        exact comparisonLoop3 n litOne
      · exact Or.inr (pOut_bind h)

theorem equality2 : ∀ f, parseEquality f stateL2 = .ok litOne stateL3
    ∨ pOut (parseEquality f stateL2) := by
  intro f
  cases f with
  | zero => exact Or.inr ⟨stateL2, rfl⟩
  | succ n =>
      simp only [parseEquality]
      rcases comparison2 n with h | h
      · rw [h]
        simp only [PRes.bind]
        exact equalityLoop3 n litOne
      · exact Or.inr (pOut_bind h)

theorem and2 : ∀ f, parseAnd f stateL2 = .ok litOne stateL3
    ∨ pOut (parseAnd f stateL2) := by
  intro f
  cases f with
  | zero => exact Or.inr ⟨stateL2, rfl⟩
  | succ n =>
      simp only [parseAnd]
      rcases equality2 n with h | h
      · rw [h]
        simp only [PRes.bind]
        exact andLoop3 n litOne
      · exact Or.inr (pOut_bind h)

theorem or2 : ∀ f, parseOr f stateL2 = .ok litOne stateL3
    ∨ pOut (parseOr f stateL2) := by
  intro f
  cases f with
  | zero => exact Or.inr ⟨stateL2, rfl⟩
  | succ n =>
      simp only [parseOr]
      rcases and2 n with h | h
      · rw [h]
        simp only [PRes.bind]
        exact orLoop3 n litOne
      · exact Or.inr (pOut_bind h)

theorem range2 : ∀ f, parseRange f stateL2 = .ok litOne stateL3
    ∨ pOut (parseRange f stateL2) := by
  intro f
  cases f with
  | zero => exact Or.inr ⟨stateL2, rfl⟩
  | succ n =>
      simp only [parseRange]
      rcases or2 n with h | h
      · rw [h]
        simp only [PRes.bind]
        exact Or.inl rfl
      · exact Or.inr (pOut_bind h)

theorem assignment2 : ∀ f, parseAssignment f stateL2 = .ok litOne stateL3
    ∨ pOut (parseAssignment f stateL2) := by
  intro f
  cases f with
  | zero => exact Or.inr ⟨stateL2, rfl⟩
  | succ n =>
      simp only [parseAssignment]
      rcases range2 n with h | h
      · rw [h]
        simp only [PRes.bind]
        exact Or.inl rfl
      · exact Or.inr (pOut_bind h)

theorem expression2 : ∀ f, parseExpression f stateL2 = .ok litOne stateL3
    ∨ pOut (parseExpression f stateL2) := by
  intro f
  cases f with
  | zero => exact Or.inr ⟨stateL2, rfl⟩
  | succ n =>
      show parseAssignment n stateL2 = _ ∨ _
      exact assignment2 n

theorem argsLoop2 : ∀ f, pOut (parseFnArgsLoop f stateL2 []) := by
  intro f
  cases f with
  | zero => exact ⟨stateL2, rfl⟩
  | succ n =>
      simp only [parseFnArgsLoop]
      rcases expression2 n with h | h
      · rw [show PState.peekTok stateL2 = some ⟨"1", .number (.finite 1), 1⟩ from rfl]
        simp only [reduceCtorEq, if_neg, reduceIte]
        rw [h]
        simp only [PRes.bind]
        rw [show PState.peekTok stateL3 = some ⟨"1", .number (.finite 1), 1⟩ from rfl]
        simp only [reduceCtorEq, if_neg, reduceIte]
        exact argsLoop3 n [litOne]
      · rw [show PState.peekTok stateL2 = some ⟨"1", .number (.finite 1), 1⟩ from rfl]
        simp only [reduceCtorEq, if_neg, reduceIte]
        exact pOut_bind h

theorem fnArgs2 : ∀ f (c : Expression) (tok : Token), pOut (parseFnArgs f stateL2 c tok) := by
  intro f c tok
  cases f with
  | zero => exact ⟨stateL2, rfl⟩
  | succ n =>
      simp only [parseFnArgs]
      exact pOut_bind (argsLoop2 n)

theorem callLoop1 : ∀ f (c : Expression), pOut (parseCallLoop f stateL1 c) := by
  intro f c
  cases f with
  | zero => exact ⟨stateL1, rfl⟩
  | succ n =>
      simp only [parseCallLoop]
      rw [show PState.peekTok stateL1 = some ⟨"(", .leftParen, 1⟩ from rfl]
      simp only [if_pos, reduceIte]
      rw [show PState.nextToken stateL1 = some (⟨"(", .leftParen, 1⟩, stateL2) from rfl]
      exact pOut_bind (fnArgs2 n c ⟨"(", .leftParen, 1⟩)

theorem prim0 : ∀ f, parsePrimary f stateL0 = .ok (.var ⟨"x", .identifier, 1⟩) stateL1
    ∨ pOut (parsePrimary f stateL0) := by
  intro f
  cases f with
  | zero => exact Or.inr ⟨stateL0, rfl⟩
  | succ n => exact Or.inl rfl

theorem call0 : ∀ f, pOut (parseCall f stateL0) := by
  intro f
  cases f with
  | zero => exact ⟨stateL0, rfl⟩
  | succ n =>
      simp only [parseCall]
      rcases prim0 n with h | h
      · rw [h]
        simp only [PRes.bind]
        exact callLoop1 n (.var ⟨"x", .identifier, 1⟩)
      · exact pOut_bind h

theorem unary0 : ∀ f, pOut (parseUnary f stateL0) := by
  intro f
  cases f with
  | zero => exact ⟨stateL0, rfl⟩
  | succ n =>
      show pOut (parseCall n stateL0)
      exact call0 n

theorem factor0 : ∀ f, pOut (parseFactor f stateL0) := by
  intro f
  cases f with
  | zero => exact ⟨stateL0, rfl⟩
  | succ n =>
      simp only [parseFactor]
      exact pOut_bind (unary0 n)

theorem term0 : ∀ f, pOut (parseTerm f stateL0) := by
  intro f
  cases f with
  | zero => exact ⟨stateL0, rfl⟩
  | succ n =>
      simp only [parseTerm]
      exact pOut_bind (factor0 n)

theorem comparison0 : ∀ f, pOut (parseComparison f stateL0) := by
  intro f
  cases f with
  | zero => exact ⟨stateL0, rfl⟩
  | succ n =>
      simp only [parseComparison]
      exact pOut_bind (term0 n)

theorem equality0 : ∀ f, pOut (parseEquality f stateL0) := by
  intro f
  cases f with
  | zero => exact ⟨stateL0, rfl⟩
  | succ n =>
      simp only [parseEquality]
      exact pOut_bind (comparison0 n)

theorem and0 : ∀ f, pOut (parseAnd f stateL0) := by
  intro f
  cases f with
  | zero => exact ⟨stateL0, rfl⟩
  | succ n =>
      simp only [parseAnd]
      exact pOut_bind (equality0 n)

theorem or0 : ∀ f, pOut (parseOr f stateL0) := by
  intro f
  cases f with
  | zero => exact ⟨stateL0, rfl⟩
  | succ n =>
      simp only [parseOr]
      exact pOut_bind (and0 n)

theorem range0 : ∀ f, pOut (parseRange f stateL0) := by
  intro f
  cases f with
  | zero => exact ⟨stateL0, rfl⟩
  | succ n =>
      simp only [parseRange]
      exact pOut_bind (or0 n)

theorem assignment0 : ∀ f, pOut (parseAssignment f stateL0) := by
  intro f
  cases f with
  | zero => exact ⟨stateL0, rfl⟩
  | succ n =>
      simp only [parseAssignment]
      exact pOut_bind (range0 n)

theorem expression0 : ∀ f, pOut (parseExpression f stateL0) := by
  intro f
  cases f with
  | zero => exact ⟨stateL0, rfl⟩
  | succ n =>
      show pOut (parseAssignment n stateL0)
      exact assignment0 n

theorem statment0 : ∀ f, pOut (parseStatment f stateL0) := by
  intro f
  cases f with
  | zero => exact ⟨stateL0, rfl⟩
  | succ n =>
      simp only [parseStatment]
      rw [show PState.peekTok stateL0 = some ⟨"x", .identifier, 1⟩ from rfl]
      simp only [reduceCtorEq, if_neg, reduceIte]
      exact pOut_bind (expression0 n)

theorem declaration0 : ∀ f, pOut (parseDeclaration f stateL0) := by
  intro f
  cases f with
  | zero => exact ⟨stateL0, rfl⟩
  | succ n =>
      simp only [parseDeclaration]
      rw [show PState.peekTok stateL0 = some ⟨"x", .identifier, 1⟩ from rfl]
      simp only [reduceCtorEq, if_neg, reduceIte]
      exact pOut_bind (statment0 n)

/-- C6: the claim says `peek` past the last token returns a sentinel whose
kind never matches any FIRST set, and that `expect` at end-of-stream
diagnoses without panicking or looping on the final token.  In the source
`peek` past the end returns the LAST token itself (first conjunct: after a
lone `let` token it returns that `let` token — a kind in the FIRST set of
`declaration`), and as a consequence the parser LOOPS FOREVER on the
token sequence `x(1`: `parse_fn_args` re-reads the stale final `1` token
as an argument expression without advancing, for every fuel bound
(second conjunct). -/
theorem peek_past_end_returns_last_token_and_parser_diverges :
    PState.peekTok ⟨[⟨"let", .let_, 1⟩], 1⟩ = some ⟨"let", .let_, 1⟩
    ∧ ∀ fuel : Nat, parseProgram loopTokens fuel = .fuelOut := by
  constructor
  · rfl
  · intro fuel
    cases fuel with
    | zero => rfl
    | succ n =>
        have h0 : (⟨loopTokens, 0⟩ : PState) = stateL0 := rfl
        simp only [parseProgram, parseLoop, h0]
        obtain ⟨st', h⟩ := declaration0 n
        rw [show (PState.finished stateL0) = false from rfl, h]
        rfl

end Twli
